import Mathlib

/-
  Verification of the Volume-Profile backend's indicator core against its
  specification: the indicator configuration parser
  (src/backend/services/indicator_parser.py), the calculation engine
  (IndicatorCalculator in the same file), the indicator math wrappers
  (src/backend/services/indicators/*.py) and the timeframe aggregator
  (src/backend/services/timeframe_service.py).

  Modelling conventions:
  * float64 values are idealized as rationals (ℚ); the not-a-number sentinel
    is modelled by `none` in `Cell := Option ℚ`.
  * A pandas DataFrame is modelled as an ordered association list of named
    columns (`Frame`); column assignment replaces an existing column in
    place or appends a new one at the end, as pandas does.
  * Python exceptions (ValueError, KeyError) are modelled with
    `Except String`, carrying the exception message.
  * The numeric kernels that the source delegates to the TA-Lib library
    (talib.SMA/EMA/WMA/MACD/STOCH/RSI/BBANDS) and the pandas weekly
    resampler are not part of this repository; those definitions are
    modelled from the spec's §4.1/§4.3 formulas and are marked
    "Modelled from the spec" below.
-/

deriving instance DecidableEq for Except

namespace VolumeProfile

/-- A float64 value or the NaN sentinel. -/
abbrev Cell := Option ℚ

/-- A pandas DataFrame: an ordered list of named columns of cells. -/
structure Frame where
  cols : List (String × List Cell)
deriving DecidableEq

/-- Column lookup, `df[name]` on the reading side: first column of that name. -/
def Frame.getCol (f : Frame) (n : String) : Option (List Cell) :=
  (f.cols.find? (fun c => c.1 == n)).map (fun c => c.2)

/-- `name in df.columns`. -/
def Frame.hasCol (f : Frame) (n : String) : Bool :=
  f.cols.any (fun c => c.1 == n)

/-- Column assignment `df[name] = v`: replaces an existing column in place,
otherwise appends the new column at the end (pandas semantics). -/
def Frame.setCol (f : Frame) (n : String) (v : List Cell) : Frame :=
  if f.hasCol n then ⟨f.cols.map (fun c => if c.1 == n then (n, v) else c)⟩
  else ⟨f.cols ++ [(n, v)]⟩

/-- `df.drop(columns=[name])`. -/
def Frame.dropCol (f : Frame) (n : String) : Frame :=
  ⟨f.cols.filter (fun c => !(c.1 == n))⟩

/-- The ordered column names of a frame. -/
def Frame.names (f : Frame) : List String := f.cols.map (fun c => c.1)

/-- How many columns carry a given name. -/
def Frame.countCol (f : Frame) (n : String) : Nat :=
  (f.cols.filter (fun c => c.1 == n)).length

/-- `df[name]` on the reading side where Python raises KeyError when the
column is absent. -/
def Frame.getColE (f : Frame) (n : String) : Except String (List Cell) :=
  match f.getCol n with
  | some v => Except.ok v
  | none => Except.error ("KeyError: " ++ n)

/-- One cell of `fillna(0)`: NaN becomes the literal 0. -/
def fill0 (c : Cell) : Cell := some (c.getD 0)

/-- `df.fillna(0)` over every column. -/
def Frame.fillna0 (f : Frame) : Frame :=
  ⟨f.cols.map (fun c => (c.1, c.2.map fill0))⟩

/-- The numeric view of a column that the source passes to the math library
(`df[col].values`); a bar series carries no NaN in its OHLCV columns, so the
`getD 0` default is never exercised on the modelled inputs. -/
def vals (l : List Cell) : List ℚ := l.map (fun c => c.getD 0)

/-! ## Indicator math, modelled from the spec (§4.3)

The source computes these kernels with TA-Lib, which is an external
library, not code of this repository; each definition below is modelled
from the spec's formula. -/

/-- Modelled from the spec: `talib.SMA` value at index `i` — arithmetic mean
of the trailing `p` closes, NaN for the first `p-1` positions (warm-up `p`). -/
def smaAt (p : Nat) (xs : List ℚ) (i : Nat) : Cell :=
  if p = 0 ∨ i + 1 < p then none
  else some (((xs.drop (i + 1 - p)).take p).sum / (p : ℚ))

/-- The SMA column over a close series. -/
def smaSeries (p : Nat) (xs : List ℚ) : List Cell :=
  (List.range xs.length).map (smaAt p xs)

/-- Modelled from the spec: `talib.EMA` value at index `i` — seeded with
`SMA(p)` at index `p-1`, thereafter `EMA[i] = close[i]*k + EMA[i-1]*(1-k)`
with `k = 2/(p+1)`; warm-up `p`. -/
def emaAt (p : Nat) (xs : List ℚ) : Nat → Cell
  | 0 => if p = 1 then smaAt 1 xs 0 else none
  | i + 1 =>
    if i + 2 < p then none
    else if i + 2 = p then smaAt p xs (i + 1)
    else
      match emaAt p xs i with
      | none => none
      | some prev =>
        some ((xs.getD (i + 1) 0) * ((2 : ℚ) / ((p : ℚ) + 1))
          + prev * (1 - (2 : ℚ) / ((p : ℚ) + 1)))

/-- The EMA column over a close series. -/
def emaSeries (p : Nat) (xs : List ℚ) : List Cell :=
  (List.range xs.length).map (emaAt p xs)

/-- Modelled from the spec: `talib.WMA` value at index `i` — weighted mean of
the trailing `p` closes with linearly increasing weights `1..p`, the newest
sample weighted `p`; warm-up `p`. -/
def wmaAt (p : Nat) (xs : List ℚ) (i : Nat) : Cell :=
  if p = 0 ∨ i + 1 < p then none
  else
    let w := (xs.drop (i + 1 - p)).take p
    some ((((List.range p).map (fun (j : Nat) => ((j : ℚ) + 1) * w.getD j 0)).sum)
      / (((List.range p).map (fun (j : Nat) => ((j : ℚ) + 1))).sum))

/-- The WMA column over a close series. -/
def wmaSeries (p : Nat) (xs : List ℚ) : List Cell :=
  (List.range xs.length).map (wmaAt p xs)

/-- Subtraction of two cells; NaN propagates. -/
def cellSub (a b : Cell) : Cell :=
  match a, b with
  | some x, some y => some (x - y)
  | _, _ => none

/-- `(DIF - DEA) * 2` on cells; NaN propagates. -/
def cellHist (a b : Cell) : Cell :=
  match a, b with
  | some x, some y => some ((x - y) * 2)
  | _, _ => none

/-- Modelled from the spec: `talib.MACD` — `DIF = EMA(fast) - EMA(slow)`
(warm-up `slow`), `DEA = EMA(DIF, signal)` computed over DIF's defined
suffix (warm-up `slow + signal - 1`), `Histogram = (DIF - DEA) * 2`.
Returns the (DIF, DEA, Histogram) columns. -/
def talibMACD (fast slow signal : Nat) (xs : List ℚ) :
    List Cell × List Cell × List Cell :=
  let n := xs.length
  let difAt : Nat → Cell := fun i => cellSub (emaAt fast xs i) (emaAt slow xs i)
  let difVals : List ℚ :=
    (((List.range n).map difAt).drop (slow - 1)).map (fun c => c.getD 0)
  let deaAt : Nat → Cell := fun i =>
    if i < slow - 1 then none else emaAt signal difVals (i - (slow - 1))
  (((List.range n).map difAt),
   ((List.range n).map deaAt),
   ((List.range n).map (fun i => cellHist (difAt i) (deaAt i))))

/-- Wilder's smoothing at index `i` over a series of gains or losses:
first value a simple average of the first `p` entries, then
`avg[i] = (avg[i-1]*(p-1) + value[i]) / p` (spec §4.3 RSI). -/
def wilderAt (p : Nat) (vs : List ℚ) : Nat → Option ℚ
  | 0 => if p = 1 then some (vs.getD 0 0) else none
  | i + 1 =>
    if i + 2 < p then none
    else if i + 2 = p then some (((vs.take p).sum) / (p : ℚ))
    else
      match wilderAt p vs i with
      | none => none
      | some prev => some ((prev * ((p : ℚ) - 1) + vs.getD (i + 1) 0) / (p : ℚ))

/-- Modelled from the spec: `talib.RSI` — Wilder-smoothed average gain and
loss over the trailing `p` differences, `RSI = 100 - 100/(1+avgGain/avgLoss)`
and 100 when the average loss is zero; warm-up `p + 1`. -/
def rsiSeries (p : Nat) (xs : List ℚ) : List Cell :=
  let d := List.zipWith (fun a b => b - a) xs (xs.drop 1)
  let gains := d.map (fun x => max x 0)
  let losses := d.map (fun x => max (-x) 0)
  (List.range xs.length).map (fun i =>
    if i = 0 then none
    else
      match wilderAt p gains (i - 1), wilderAt p losses (i - 1) with
      | some g, some l => some (if l = 0 then 100 else 100 - 100 / (1 + g / l))
      | _, _ => none)

/-- Raw stochastic value at index `i` (spec §4.3 KDJ): position of the close
in the trailing `fastk` high/low range, scaled to 0..100, defined as 0 when
the range is empty. -/
def rsvAt (fastk : Nat) (hs ls cs : List ℚ) (i : Nat) : Cell :=
  if fastk = 0 ∨ i + 1 < fastk then none
  else
    let hw := (hs.drop (i + 1 - fastk)).take fastk
    let lw := (ls.drop (i + 1 - fastk)).take fastk
    let hi := hw.foldl max (hw.headD 0)
    let lo := lw.foldl min (lw.headD 0)
    if hi - lo = 0 then some 0
    else some ((cs.getD i 0 - lo) / (hi - lo) * 100)

/-- Modelled from the spec: `talib.STOCH`-based KDJ — `K = SMA(RSV, slowk)`
over RSV's defined suffix, `D = SMA(K, slowd)` over K's defined suffix and
`J = 3*K - 2*D`; warm-up for K is `fastk + slowk - 1`, for D add `slowd - 1`. -/
def kdjTriple (fastk slowk slowd : Nat) (hs ls cs : List ℚ) :
    List Cell × List Cell × List Cell :=
  let n := cs.length
  let rsvVals : List ℚ :=
    (((List.range n).map (rsvAt fastk hs ls cs)).drop (fastk - 1)).map
      (fun c => c.getD 0)
  let kAt : Nat → Cell := fun i =>
    if i < fastk - 1 then none else smaAt slowk rsvVals (i - (fastk - 1))
  let kVals : List ℚ :=
    (((List.range n).map kAt).drop (fastk - 1 + (slowk - 1))).map
      (fun c => c.getD 0)
  let dAt : Nat → Cell := fun i =>
    if i < fastk - 1 + (slowk - 1) then none
    else smaAt slowd kVals (i - (fastk - 1 + (slowk - 1)))
  let jAt : Nat → Cell := fun i =>
    match kAt i, dAt i with
    | some k, some d => some (3 * k - 2 * d)
    | _, _ => none
  ((List.range n).map kAt, (List.range n).map dAt, (List.range n).map jAt)

/-- Population variance of the trailing `p` closes at index `i`. -/
def popVarAt (p : Nat) (xs : List ℚ) (i : Nat) : Option ℚ :=
  match smaAt p xs i with
  | none => none
  | some m =>
    some ((((xs.drop (i + 1 - p)).take p).map (fun x => (x - m) ^ 2)).sum / (p : ℚ))

/-- Modelled from the spec: `talib.BBANDS` — middle band `SMA(close, p)`,
upper/lower `middle ± nbdev * σ` with σ the population standard deviation of
the trailing window; warm-up `p`. The square root of a rational is not
rational, so the deviation term uses the population variance in place of σ
here; no claim concerns the Bollinger numeric values, only that the columns
exist and follow the warm-up/NaN discipline, which is unaffected. -/
def bbandsTriple (p : Nat) (nbdevUp nbdevDown : ℚ) (xs : List ℚ) :
    List Cell × List Cell × List Cell :=
  let mid : Nat → Cell := fun i => smaAt p xs i
  let up : Nat → Cell := fun i =>
    match mid i, popVarAt p xs i with
    | some m, some v => some (m + nbdevUp * v)
    | _, _ => none
  let lo : Nat → Cell := fun i =>
    match mid i, popVarAt p xs i with
    | some m, some v => some (m - nbdevDown * v)
    | _, _ => none
  ((List.range xs.length).map up,
   (List.range xs.length).map mid,
   (List.range xs.length).map lo)

/-! ## Python string primitives

Python `str` operations are modelled over the string's character list
(`String.data`), with structurally recursive definitions so that concrete
runs are kernel-computable. -/

/-- The ASCII whitespace that Python's `str.strip()` removes. -/
def isPyWS (c : Char) : Bool :=
  c = ' ' ∨ c = '\t' ∨ c = '\n' ∨ c = '\r' ∨ c = '\x0b' ∨ c = '\x0c'

/-- `s.strip()` on a character list. -/
def trimC (l : List Char) : List Char :=
  ((l.dropWhile isPyWS).reverse.dropWhile isPyWS).reverse

/-- `s.split(sep)` for a single-character separator: every occurrence splits,
neighbouring separators yield empty parts, the empty string yields `[""]`. -/
def splitC (sep : Char) : List Char → List (List Char)
  | [] => [[]]
  | c :: rest =>
    let r := splitC sep rest
    if c = sep then [] :: r
    else (c :: r.headD []) :: r.tail

/-- `sep.join(parts)` for a single-character separator. -/
def joinC (sep : Char) : List (List Char) → List Char
  | [] => []
  | [p] => p
  | p :: rest => p ++ sep :: joinC sep rest

/-- `s.lower()` on a character list. -/
def lowerC (l : List Char) : List Char := l.map Char.toLower

/-- Repack a character list as a string. -/
def strOf (l : List Char) : String := String.mk l

/-- `sep in s` for a single character. -/
def containsC (sep : Char) (l : List Char) : Bool := l.any (fun c => c = sep)

/-! ## Python literal parsing

Models of Python's `int()` and `float()` on string arguments, as used by
`IndicatorParser` (src/backend/services/indicator_parser.py): surrounding
whitespace is stripped, an optional sign is allowed, and single underscores
may stand between digits. (`float()` is modelled on finite decimal
literals; the `inf`/`nan` spellings, irrelevant to every claim, are not
representable in ℚ and are rejected.) -/

/-- Python's digit-part grammar: nonempty digits with single underscores
strictly between digits. -/
def pyDigits : List Char → Bool
  | [] => false
  | [c] => c.isDigit
  | c :: c2 :: rest =>
    c.isDigit && (if c2 = '_' then pyDigits rest else pyDigits (c2 :: rest))

/-- Numeric value of a digit part, ignoring underscores. -/
def digitsVal (cs : List Char) : Nat :=
  cs.foldl (fun a c => if c = '_' then a else 10 * a + (c.toNat - 48)) 0

/-- Python's `int(s)`: `none` models a raised ValueError. -/
def pythonInt (s : String) : Option Int :=
  match trimC s.data with
  | '-' :: rest => if pyDigits rest then some (-(digitsVal rest : Int)) else none
  | '+' :: rest => if pyDigits rest then some ((digitsVal rest : Int)) else none
  | cs => if pyDigits cs then some ((digitsVal cs : Int)) else none

/-- The ValueError message `int()` raises on a bad literal. -/
def intErr (s : String) : String :=
  "invalid literal for int() with base 10: '" ++ s ++ "'"

/-- `int(s)` in the `Except` monad, with Python's error message. -/
def pyIntE (s : String) : Except String Int :=
  match pythonInt s with
  | some v => Except.ok v
  | none => Except.error (intErr s)

/-- Mantissa of a float literal: `digits`, `digits.`, `.digits` or
`digits.digits`, each digit part following `pyDigits`. -/
def pyMantissa (s : List Char) : Option ℚ :=
  match splitC '.' s with
  | [a] => if pyDigits a then some ((digitsVal a : ℚ)) else none
  | [a, b] =>
    if (a = [] ∨ pyDigits a) ∧ (b = [] ∨ pyDigits b) ∧ ¬(a = [] ∧ b = []) then
      some ((digitsVal a : ℚ)
        + (digitsVal b : ℚ) / (10 : ℚ) ^ ((b.filter (fun c => !(c = '_'))).length))
    else none
  | _ => none

/-- Exponent of a float literal: optionally signed digits. -/
def pyExp (s : List Char) : Option Int :=
  match s with
  | '-' :: rest => if pyDigits rest then some (-(digitsVal rest : Int)) else none
  | '+' :: rest => if pyDigits rest then some ((digitsVal rest : Int)) else none
  | cs => if pyDigits cs then some ((digitsVal cs : Int)) else none

/-- Python's `float(s)` on finite decimal literals. -/
def pythonFloat (s : String) : Option ℚ :=
  let (sign, body) :=
    match trimC s.data with
    | '-' :: r => ((-1 : ℚ), r)
    | '+' :: r => ((1 : ℚ), r)
    | r => ((1 : ℚ), r)
  match splitC 'e' (lowerC body) with
  | [m] => (pyMantissa m).map (fun v => sign * v)
  | [m, e] =>
    match pyMantissa m, pyExp e with
    | some mv, some ev => some (sign * mv * (10 : ℚ) ^ ev)
    | _, _ => none
  | _ => none

/-- The ValueError message `float()` raises on a bad literal. -/
def floatErr (s : String) : String :=
  "could not convert string to float: '" ++ s ++ "'"

/-- `float(s)` in the `Except` monad, with Python's error message. -/
def pyFloatE (s : String) : Except String ℚ :=
  match pythonFloat s with
  | some v => Except.ok v
  | none => Except.error (floatErr s)

/-! ## Configuration parser
(IndicatorParser, src/backend/services/indicator_parser.py) -/

/-- A parameter value of the dynamic `Dict[str, Any]` parameter bag. -/
inductive PValue where
  | s (v : String)
  | i (v : Int)
  | q (v : ℚ)
  | il (v : List Int)
deriving DecidableEq

/-- The parameter dictionary of one request. -/
abbrev Params := List (String × PValue)

/-- `IndicatorRequest`: one parsed indicator clause. -/
structure IndicatorRequest where
  indicator_id : String
  parameters : Params
deriving DecidableEq

/-- `params.get(k, d)` for a string-valued entry. -/
def getS (ps : Params) (k : String) (d : String) : String :=
  match ps.find? (fun c => c.1 == k) with
  | some (_, PValue.s v) => v
  | _ => d

/-- `params.get(k, d)` for an int-valued entry. -/
def getI (ps : Params) (k : String) (d : Int) : Int :=
  match ps.find? (fun c => c.1 == k) with
  | some (_, PValue.i v) => v
  | _ => d

/-- `params.get(k, d)` for a float-valued entry. -/
def getQ (ps : Params) (k : String) (d : ℚ) : ℚ :=
  match ps.find? (fun c => c.1 == k) with
  | some (_, PValue.q v) => v
  | _ => d

/-- `params.get(k, d)` for an int-list-valued entry. -/
def getIl (ps : Params) (k : String) (d : List Int) : List Int :=
  match ps.find? (fun c => c.1 == k) with
  | some (_, PValue.il v) => v
  | _ => d

/-- Python's `s.split(sep, 1)` when `sep` occurs in `s`: the text before the
first separator and everything after it. -/
def splitFirst (s : String) (sep : Char) : String × String :=
  match splitC sep s.data with
  | [] => (s, "")
  | [a] => (strOf a, "")
  | a :: rest => (strOf a, strOf (joinC sep rest))

/-- The list comprehension `[int(p.strip()) for p in parts]`: left-to-right,
the first failure raises. -/
def mapME (f : List Char → Except String Int) : List (List Char) → Except String (List Int)
  | [] => Except.ok []
  | p :: rest => do
    let v ← f p
    let vs ← mapME f rest
    pure (v :: vs)

/-- `IndicatorParser._parse_ma_params`: `type:p1,p2,...` or bare `p1,p2,...`
(type defaults to sma); periods via `int(p.strip())`, with no range check. -/
def parseMaParams (ps : String) : Except String Params := do
  let (ma_type, periods_str) ←
    if containsC ':' ps.data then
      let t0 := (splitFirst ps ':').1
      let rest := (splitFirst ps ':').2
      let t := strOf (lowerC (trimC t0.data))
      if t = "sma" ∨ t = "ema" ∨ t = "wma" then pure (t, rest)
      else Except.error ("Unknown MA type: " ++ t ++ ". Must be sma, ema, or wma")
    else pure ("sma", ps)
  let periods ← mapME (fun p => pyIntE (strOf (trimC p))) (splitC ',' periods_str.data)
  pure [("ma_type", PValue.s ma_type), ("periods", PValue.il periods)]

/-- `IndicatorParser._parse_kdj_params`: exactly three `-`-separated ints. -/
def parseKdjParams (ps : String) : Except String Params :=
  match splitC '-' ps.data with
  | [a, b, c] => do
    let f ← pyIntE (strOf a)
    let k ← pyIntE (strOf b)
    let d ← pyIntE (strOf c)
    pure [("fastk_period", PValue.i f), ("slowk_period", PValue.i k),
      ("slowd_period", PValue.i d)]
  | _ => Except.error "KDJ requires 3 parameters: fastk-slowk-slowd"

/-- `IndicatorParser._parse_macd_params`: exactly three `-`-separated ints. -/
def parseMacdParams (ps : String) : Except String Params :=
  match splitC '-' ps.data with
  | [a, b, c] => do
    let f ← pyIntE (strOf a)
    let s ← pyIntE (strOf b)
    let g ← pyIntE (strOf c)
    pure [("fast_period", PValue.i f), ("slow_period", PValue.i s),
      ("signal_period", PValue.i g)]
  | _ => Except.error "MACD requires 3 parameters: fast-slow-signal"

/-- `IndicatorParser._parse_rsi_params`: a single int. -/
def parseRsiParams (ps : String) : Except String Params := do
  let v ← pyIntE ps
  pure [("period", PValue.i v)]

/-- `IndicatorParser._parse_boll_params`: `period-nbdev`, arity at least 2;
both deviation multipliers are set from the one `nbdev`. -/
def parseBollParams (ps : String) : Except String Params :=
  let parts := splitC '-' ps.data
  if parts.length < 2 then
    Except.error "BOLL requires at least 2 parameters: period-nbdev"
  else do
    let period ← pyIntE (strOf (parts.getD 0 []))
    let nbdev ← pyFloatE (strOf (parts.getD 1 []))
    pure [("period", PValue.i period), ("nbdev_up", PValue.q nbdev),
      ("nbdev_down", PValue.q nbdev)]

/-- One iteration of `IndicatorParser.parse`'s clause loop: an empty clause
is skipped (`none`), otherwise the clause is split at the first `:`, the id
lowercased, and the per-id parameter grammar applied; parameter failures —
including the unknown-indicator case — are wrapped with the offending id and
parameter substring. -/
def parseClause (part0 : String) : Except String (Option IndicatorRequest) :=
  let part := strOf (trimC part0.data)
  if part = "" then Except.ok none
  else if !(containsC ':' part.data) then
    Except.error ("Invalid indicator format: '" ++ part
      ++ "'. Expected format: 'indicator_id:params'")
  else
    let iid := strOf (lowerC (trimC (splitFirst part ':').1.data))
    let params_str := strOf (trimC (splitFirst part ':').2.data)
    let inner : Except String Params :=
      if iid = "ma" then parseMaParams params_str
      else if iid = "kdj" then parseKdjParams params_str
      else if iid = "macd" then parseMacdParams params_str
      else if iid = "rsi" then parseRsiParams params_str
      else if iid = "boll" then parseBollParams params_str
      else Except.error ("Unknown indicator: " ++ iid)
    match inner with
    | Except.ok ps => Except.ok (some ⟨iid, ps⟩)
    | Except.error e =>
      Except.error ("Failed to parse " ++ iid ++ " parameters '" ++ params_str
        ++ "': " ++ e)

/-- Folding step of the clause loop: append the parsed request, if any. -/
def parseStep (acc : List IndicatorRequest) (part : String) :
    Except String (List IndicatorRequest) := do
  match ← parseClause part with
  | none => pure acc
  | some r => pure (acc ++ [r])

/-- The clause loop of `IndicatorParser.parse` over the split parts. -/
def parseParts (parts : List String) : Except String (List IndicatorRequest) :=
  parts.foldlM parseStep []

/-- `IndicatorParser.parse`: an empty or all-whitespace spec yields the empty
list; otherwise the spec is split on `;` when a `;` occurs anywhere in it and
on `|` otherwise, and the clause loop runs over the parts. -/
def parse (s : String) : Except String (List IndicatorRequest) :=
  if trimC s.data = [] then Except.ok []
  else if containsC ';' s.data then parseParts ((splitC ';' s.data).map strOf)
  else parseParts ((splitC '|' s.data).map strOf)

/-! ## Indicator math wrappers
(src/backend/services/indicators/*.py; the TA-Lib kernels they call are
modelled above from the spec) -/

/-- `calculate_sma` (moving_average.py): adds column `SMA{period}`. -/
def calculate_sma (df : Frame) (period : Int) : Except String Frame := do
  let closes ← df.getColE "close"
  Except.ok (df.setCol ("SMA" ++ toString period) (smaSeries period.toNat (vals closes)))

/-- `calculate_ema` (moving_average.py): adds column `EMA{period}`. -/
def calculate_ema (df : Frame) (period : Int) : Except String Frame := do
  let closes ← df.getColE "close"
  Except.ok (df.setCol ("EMA" ++ toString period) (emaSeries period.toNat (vals closes)))

/-- `calculate_wma` (moving_average.py): adds column `WMA{period}`. -/
def calculate_wma (df : Frame) (period : Int) : Except String Frame := do
  let closes ← df.getColE "close"
  Except.ok (df.setCol ("WMA" ++ toString period) (wmaSeries period.toNat (vals closes)))

/-- `calculate_macd` (macd.py): adds columns `MACD`, `MACD_signal`,
`MACD_hist` from `talib.MACD` on the close column. -/
def calculate_macd (df : Frame) (fast_period slow_period signal_period : Int) :
    Except String Frame := do
  let closes ← df.getColE "close"
  let t := talibMACD fast_period.toNat slow_period.toNat signal_period.toNat (vals closes)
  Except.ok (((df.setCol "MACD" t.1).setCol "MACD_signal" t.2.1).setCol "MACD_hist" t.2.2)

/-- `calculate_kdj` (kdj.py): adds columns `K`, `D`, `J` from the
high/low/close columns. -/
def calculate_kdj (df : Frame) (fastk_period slowk_period slowd_period : Int) :
    Except String Frame := do
  let hs ← df.getColE "high"
  let ls ← df.getColE "low"
  let cs ← df.getColE "close"
  let t := kdjTriple fastk_period.toNat slowk_period.toNat slowd_period.toNat
    (vals hs) (vals ls) (vals cs)
  Except.ok (((df.setCol "K" t.1).setCol "D" t.2.1).setCol "J" t.2.2)

/-- `calculate_rsi` (rsi.py): adds column `RSI`. -/
def calculate_rsi (df : Frame) (period : Int) : Except String Frame := do
  let closes ← df.getColE "close"
  Except.ok (df.setCol "RSI" (rsiSeries period.toNat (vals closes)))

/-- `calculate_bollinger_bands` (bollinger.py): adds columns `BOLL_upper`,
`BOLL_middle`, `BOLL_lower`. -/
def calculate_bollinger_bands (df : Frame) (period : Int) (nbdev_up nbdev_down : ℚ) :
    Except String Frame := do
  let closes ← df.getColE "close"
  let t := bbandsTriple period.toNat nbdev_up nbdev_down (vals closes)
  Except.ok (((df.setCol "BOLL_upper" t.1).setCol "BOLL_middle" t.2.1).setCol "BOLL_lower" t.2.2)

/-! ## Calculation engine
(IndicatorCalculator, src/backend/services/indicator_parser.py) -/

/-- Body of the period loop of `IndicatorCalculator._calculate_ma`: compute
the library column for one period, copy `SMA{p}`/`EMA{p}`/`WMA{p}` to
`MA{p}` when the library produced it, and drop the type-prefixed column. -/
def maStep (cf : Frame → Int → Except String Frame) (pre : String)
    (res : Frame) (p : Int) : Except String Frame := do
  let res2 ← cf res p
  let srcCol := pre ++ toString p
  match res2.getCol srcCol with
  | some v => pure ((res2.setCol ("MA" ++ toString p) v).dropCol srcCol)
  | none => pure res2

/-- `IndicatorCalculator._calculate_ma`: resolves the MA type, then for each
requested period invokes the math library and renames its type-prefixed
output to the type-agnostic `MA{p}`. -/
def calcMaReq (df : Frame) (ps : Params) : Except String Frame :=
  let ma_type := strOf (lowerC (getS ps "ma_type" "sma").data)
  let periods := getIl ps "periods" [20]
  if ma_type = "sma" then periods.foldlM (maStep calculate_sma "SMA") df
  else if ma_type = "ema" then periods.foldlM (maStep calculate_ema "EMA") df
  else if ma_type = "wma" then periods.foldlM (maStep calculate_wma "WMA") df
  else Except.error ("Unknown MA type: " ++ ma_type)

/-- `IndicatorCalculator._calculate_kdj`. -/
def calcKdjReq (df : Frame) (ps : Params) : Except String Frame :=
  calculate_kdj df (getI ps "fastk_period" 9) (getI ps "slowk_period" 3)
    (getI ps "slowd_period" 3)

/-- `IndicatorCalculator._calculate_macd`. -/
def calcMacdReq (df : Frame) (ps : Params) : Except String Frame :=
  calculate_macd df (getI ps "fast_period" 12) (getI ps "slow_period" 26)
    (getI ps "signal_period" 9)

/-- `IndicatorCalculator._calculate_rsi`. -/
def calcRsiReq (df : Frame) (ps : Params) : Except String Frame :=
  calculate_rsi df (getI ps "period" 14)

/-- `IndicatorCalculator._calculate_boll`. -/
def calcBollReq (df : Frame) (ps : Params) : Except String Frame :=
  calculate_bollinger_bands df (getI ps "period" 20) (getQ ps "nbdev_up" 2)
    (getQ ps "nbdev_down" 2)

/-- One iteration of `IndicatorCalculator.calculate`'s request loop: dispatch
on the indicator id; a request with an id outside the five known ones falls
through the if/elif chain and leaves the frame unchanged. -/
def applyRequest (df : Frame) (r : IndicatorRequest) : Except String Frame :=
  if r.indicator_id = "ma" then calcMaReq df r.parameters
  else if r.indicator_id = "kdj" then calcKdjReq df r.parameters
  else if r.indicator_id = "macd" then calcMacdReq df r.parameters
  else if r.indicator_id = "rsi" then calcRsiReq df r.parameters
  else if r.indicator_id = "boll" then calcBollReq df r.parameters
  else Except.ok df

/-- `IndicatorCalculator.calculate`: applies every request in order, then
replaces every NaN in the resulting frame with the literal 0. -/
def calculate (df : Frame) (rs : List IndicatorRequest) : Except String Frame := do
  let r ← rs.foldlM applyRequest df
  Except.ok r.fillna0

/-! ## Timeframe aggregator
(TimeframeService, src/backend/services/timeframe_service.py) -/

/-- One daily bar. Dates are modelled as day numbers with day 0 a Monday,
so that the weekday of day `d` is `d % 7` with Friday = 4. -/
structure Bar where
  date : Nat
  open_ : ℚ
  high : ℚ
  low : ℚ
  close : ℚ
  vol : ℚ
deriving DecidableEq

instance : Inhabited Bar := ⟨⟨0, 0, 0, 0, 0, 0⟩⟩

/-- The first Friday at or after day `d`. -/
def nextFriday (d : Nat) : Nat := d + (11 - d % 7) % 7

/-- Recursion core of the weekly bucketing, structurally recursive on a fuel
bound by the number of bars (so that the kernel can evaluate it). -/
def weeklyBucketsF : Nat → List Bar → List (List Bar)
  | 0, _ => []
  | _, [] => []
  | fuel + 1, b :: rest =>
    let grp := rest.takeWhile (fun x => nextFriday x.date == nextFriday b.date)
    (b :: grp) :: weeklyBucketsF fuel (rest.drop grp.length)

/-- Modelled from the spec: the bucketing of pandas `resample('W-FRI')`
(the resampler itself is a pandas facility, not code of this repository) —
consecutive bars sharing the same closing Friday form one bucket; buckets
with no bars never appear. -/
def weeklyBuckets (bars : List Bar) : List (List Bar) :=
  weeklyBucketsF bars.length bars

/-- The aggregation of one non-empty bucket `b :: rest` (spec §4.1 weekly):
open of the first bar, max of highs, min of lows, close of the last bar, sum
of volumes, dated at the bucket's closing Friday. -/
def aggBucket (b : Bar) (rest : List Bar) : Bar :=
  { date := nextFriday b.date
    open_ := b.open_
    high := rest.foldl (fun m x => max m x.high) b.high
    low := rest.foldl (fun m x => min m x.low) b.low
    close := (rest.getLastD b).close
    vol := rest.foldl (fun s x => s + x.vol) b.vol }

/-- `TimeframeService._resample_to_weekly`, over the spec-modelled W-FRI
bucketing: aggregate each bucket; empty buckets are dropped (the source's
`dropna()` on the all-NaN rows pandas emits for them). -/
def resample_to_weekly (bars : List Bar) : List Bar :=
  (weeklyBuckets bars).filterMap (fun g =>
    match g with
    | [] => none
    | b :: rest => some (aggBucket b rest))

/-! ## Derived definitions used by the claim statements -/

/-- Conclusion of claim C1, for a frame `df` whose close column carries the
values `xs`: `calculate_macd` succeeds and appends exactly the columns
`MACD`, `MACD_signal` and `MACD_hist`, aligned with the input; `MACD` is
`EMA(fast) - EMA(slow)` of close with NaN exactly below warm-up `slow`;
`MACD_signal` is the EMA of the DIF column with period `signal` and
`MACD_hist` is `(DIF - DEA) * 2`, each with NaN exactly below warm-up
`slow + signal - 1`. -/
def MacdClaim (df : Frame) (xs : List ℚ) (fast slow signal : Nat) : Prop :=
  ∃ out M S H,
    calculate_macd df (fast : Int) (slow : Int) (signal : Int) = Except.ok out ∧
    out.names = df.names ++ ["MACD", "MACD_signal", "MACD_hist"] ∧
    out.getCol "MACD" = some M ∧
    out.getCol "MACD_signal" = some S ∧
    out.getCol "MACD_hist" = some H ∧
    M.length = xs.length ∧ S.length = xs.length ∧ H.length = xs.length ∧
    (∀ i, i < xs.length →
      M[i]? = some (cellSub (emaAt fast xs i) (emaAt slow xs i))) ∧
    (∀ i, i < xs.length → (M[i]? = some none ↔ i + 1 < slow)) ∧
    (∀ i, i < xs.length → slow - 1 ≤ i →
      S[i]? = some (emaAt signal ((M.drop (slow - 1)).map (fun c => c.getD 0))
        (i - (slow - 1)))) ∧
    (∀ i, i < xs.length → (S[i]? = some none ↔ i + 1 < slow + signal - 1)) ∧
    (∀ i, i < xs.length → ∀ a b, M[i]? = some (some a) → S[i]? = some (some b) →
      H[i]? = some (some ((a - b) * 2))) ∧
    (∀ i, i < xs.length → (H[i]? = some none ↔ i + 1 < slow + signal - 1))

/-- Ten consecutive daily bars starting on a Saturday (day 5 with day 0 a
Monday): bar for day `d` carries open `d`, high `d+1`, low `d-1`, close `d`,
volume 1. -/
def mkDailyBar (d : Nat) : Bar :=
  ⟨d, (d : ℚ), (d : ℚ) + 1, (d : ℚ) - 1, (d : ℚ), 1⟩

/-- A run of 10 consecutive daily bars (days 5..14) spanning two
Friday-bounded weeks (Fridays at days 11 and 18). -/
def tenDayRun : List Bar :=
  [mkDailyBar 5, mkDailyBar 6, mkDailyBar 7, mkDailyBar 8, mkDailyBar 9,
   mkDailyBar 10, mkDailyBar 11, mkDailyBar 12, mkDailyBar 13, mkDailyBar 14]

/-- The OHLCV column names of a bar series (the source carries volume as
`vol`; the spec's data model calls it `volume` — both are protected). -/
def ohlcvNames : List String := ["open", "high", "low", "close", "vol", "volume"]

/-- A frame carrying the three price columns a bar series must have. -/
def HasHLC (g : Frame) : Prop :=
  (g.getCol "close").isSome ∧ (g.getCol "high").isSome ∧ (g.getCol "low").isSome

/-- The request property under which the engine cannot fail: an `ma` request
resolves to a known MA type (the parser only emits sma/ema/wma). -/
def MaTypeOk (r : IndicatorRequest) : Prop :=
  r.indicator_id = "ma" →
    strOf (lowerC (getS r.parameters "ma_type" "sma").data)
      ∈ (["sma", "ema", "wma"] : List String)

/-! ## Frame lemmas -/

theorem getCol_setCol_self (f : Frame) (n : String) (v : List Cell) :
    (f.setCol n v).getCol n = some v := by
  unfold Frame.setCol Frame.getCol Frame.hasCol
  split
  · rename_i h
    rw [List.find?_map]
    have hp : ((fun (c : String × List Cell) => c.1 == n) ∘
        (fun c => if c.1 == n then (n, v) else c))
        = (fun (c : String × List Cell) => c.1 == n) := by
      funext c
      by_cases hc : c.1 = n <;> simp [hc]
    rw [hp]
    have hs : (f.cols.find? (fun c => c.1 == n)).isSome := by
      rw [List.find?_isSome]
      exact List.any_eq_true.mp h
    obtain ⟨c, hc⟩ := Option.isSome_iff_exists.mp hs
    have hpc := List.find?_some hc
    simp only at hpc
    simp [hc, hpc, beq_iff_eq.mp hpc]
  · rename_i h
    have h2 : ∀ x ∈ f.cols, ¬((fun (c : String × List Cell) => c.1 == n) x) := by
      intro x hx hpx
      exact h (List.any_eq_true.mpr ⟨x, hx, hpx⟩)
    rw [List.find?_append, List.find?_eq_none.mpr h2]
    simp

theorem getCol_setCol_ne (f : Frame) (n m : String) (v : List Cell) (h : m ≠ n) :
    (f.setCol n v).getCol m = f.getCol m := by
  unfold Frame.setCol Frame.getCol
  split
  · rw [List.find?_map]
    have hp : ((fun (c : String × List Cell) => c.1 == m) ∘
        (fun c => if c.1 == n then (n, v) else c))
        = (fun (c : String × List Cell) => c.1 == m) := by
      funext c
      by_cases hc : c.1 = n <;> simp [hc]
    rw [hp]
    cases hf : f.cols.find? (fun c => c.1 == m) with
    | none => simp
    | some c =>
      have hpc := List.find?_some hf
      simp only at hpc
      have hcm : c.1 = m := beq_iff_eq.mp hpc
      have hcn : c.1 ≠ n := fun e => h (e ▸ hcm.symm ▸ rfl)
      simp [hf, beq_eq_false_iff_ne.mpr hcn, hcn]
  · rw [List.find?_append]
    have : ([(n, v)].find? (fun c => c.1 == m)) = none := by
      simp [List.find?_cons, beq_eq_false_iff_ne.mpr (fun e => h e.symm)]
    rw [this]
    cases f.cols.find? (fun c => c.1 == m) <;> simp

theorem getCol_dropCol_ne (f : Frame) (n m : String) (h : m ≠ n) :
    (f.dropCol n).getCol m = f.getCol m := by
  unfold Frame.dropCol Frame.getCol
  rw [List.find?_filter]
  have hp : (fun (a : String × List Cell) =>
      decide ((!(a.1 == n)) = true ∧ (a.1 == m) = true))
      = (fun (a : String × List Cell) => a.1 == m) := by
    funext c
    by_cases hc : c.1 = m
    · simp [hc, beq_eq_false_iff_ne.mpr h]
    · simp [beq_eq_false_iff_ne.mpr hc]
  rw [hp]

theorem hasCol_getCol (f : Frame) (n : String) :
    f.hasCol n = (f.getCol n).isSome := by
  unfold Frame.hasCol Frame.getCol
  cases hf : f.cols.find? (fun c => c.1 == n) with
  | none =>
    have h2 := List.find?_eq_none.mp hf
    simp only [hf, Option.map_none', Option.isSome_none]
    rw [List.any_eq_false]
    intro x hx
    exact h2 x hx
  | some c =>
    simp only [hf, Option.map_some', Option.isSome_some]
    have hpc := List.find?_some hf
    simp only at hpc
    exact List.any_eq_true.mpr ⟨c, List.mem_of_find?_eq_some hf, by simpa using hpc⟩

theorem hasCol_dropCol_self (f : Frame) (n : String) :
    (f.dropCol n).hasCol n = false := by
  unfold Frame.dropCol Frame.hasCol
  rw [List.any_eq_false]
  intro x hx
  have := (List.mem_filter.mp hx).2
  simp only [Bool.not_eq_true'] at this
  simp [this]

theorem hasCol_dropCol_ne (f : Frame) (n m : String) (h : m ≠ n) :
    (f.dropCol n).hasCol m = f.hasCol m := by
  rw [hasCol_getCol, hasCol_getCol, getCol_dropCol_ne f n m h]

theorem hasCol_setCol_self (f : Frame) (n : String) (v : List Cell) :
    (f.setCol n v).hasCol n = true := by
  rw [hasCol_getCol, getCol_setCol_self]
  rfl

theorem hasCol_setCol_ne (f : Frame) (n m : String) (v : List Cell) (h : m ≠ n) :
    (f.setCol n v).hasCol m = f.hasCol m := by
  rw [hasCol_getCol, hasCol_getCol, getCol_setCol_ne f n m v h]

theorem names_setCol_absent (f : Frame) (n : String) (v : List Cell)
    (h : f.hasCol n = false) : (f.setCol n v).names = f.names ++ [n] := by
  unfold Frame.setCol
  rw [h]
  simp [Frame.names]

theorem names_setCol_present (f : Frame) (n : String) (v : List Cell)
    (h : f.hasCol n = true) : (f.setCol n v).names = f.names := by
  unfold Frame.setCol
  rw [h]
  simp only [if_pos]
  unfold Frame.names
  simp only [List.map_map]
  apply List.map_congr_left
  intro c _
  by_cases hc : c.1 = n <;> simp [hc]

theorem names_dropCol (f : Frame) (n : String) :
    (f.dropCol n).names = f.names.filter (fun m => !(m == n)) := by
  unfold Frame.dropCol Frame.names
  rw [List.filter_map]
  rfl

theorem getCol_fillna0 (f : Frame) (n : String) :
    (f.fillna0).getCol n = (f.getCol n).map (List.map fill0) := by
  unfold Frame.fillna0 Frame.getCol
  rw [List.find?_map]
  have hp : ((fun (c : String × List Cell) => c.1 == n) ∘
      (fun c => (c.1, c.2.map fill0)))
      = (fun (c : String × List Cell) => c.1 == n) := rfl
  rw [hp]
  cases f.cols.find? (fun c => c.1 == n) <;> simp

theorem names_fillna0 (f : Frame) : (f.fillna0).names = f.names := by
  unfold Frame.fillna0 Frame.names
  simp

theorem hasCol_fillna0 (f : Frame) (n : String) :
    (f.fillna0).hasCol n = f.hasCol n := by
  rw [hasCol_getCol, hasCol_getCol, getCol_fillna0]
  cases f.getCol n <;> rfl


/-! ## Math lemmas -/

theorem vals_map_some (xs : List ℚ) : vals (xs.map some) = xs := by
  induction xs with
  | nil => rfl
  | cons x t ih =>
    unfold vals at ih ⊢
    simp [ih]

theorem range_map_getElem? {α : Type} (f : Nat → α) (n i : Nat) (h : i < n) :
    ((List.range n).map f)[i]? = some (f i) := by
  rw [List.getElem?_map, List.getElem?_range h]
  rfl

theorem cellSub_eq_none_iff (a b : Cell) :
    cellSub a b = none ↔ a = none ∨ b = none := by
  cases a <;> cases b <;> simp [cellSub]

theorem cellHist_eq_none_iff (a b : Cell) :
    cellHist a b = none ↔ a = none ∨ b = none := by
  cases a <;> cases b <;> simp [cellHist]

theorem smaAt_eq_none_iff (p : Nat) (xs : List ℚ) (i : Nat) (hp : 1 ≤ p) :
    smaAt p xs i = none ↔ i + 1 < p := by
  unfold smaAt
  split
  · rename_i h
    simp only [true_iff]
    omega
  · rename_i h
    simp only [reduceCtorEq, false_iff]
    omega

theorem emaAt_eq_none_iff (p : Nat) (xs : List ℚ) (i : Nat) (hp : 1 ≤ p) :
    emaAt p xs i = none ↔ i + 1 < p := by
  induction i with
  | zero =>
    unfold emaAt
    by_cases h1 : p = 1
    · subst h1
      rw [if_pos rfl, smaAt_eq_none_iff 1 xs 0 (by omega)]
    · simp only [if_neg h1, true_iff]
      omega
  | succ j ih =>
    unfold emaAt
    by_cases h1 : j + 2 < p
    · simp [h1]
    · by_cases h2 : j + 2 = p
      · simp only [if_neg h1, if_pos h2]
        rw [smaAt_eq_none_iff p xs (j + 1) hp]
      · have hsome : emaAt p xs j ≠ none := by
          intro hn
          have := ih.mp hn
          omega
        obtain ⟨prev, hprev⟩ := Option.ne_none_iff_exists'.mp hsome
        simp only [if_neg h1, if_neg h2, hprev, reduceCtorEq, false_iff]
        omega

/-! ## Claim C1: calculate_macd -/

theorem calculate_macd_run (df : Frame) (xs : List ℚ) (f s g : Nat)
    (hclose : df.getCol "close" = some (xs.map some)) :
    calculate_macd df (f : Int) (s : Int) (g : Int) = Except.ok
      (((df.setCol "MACD" (talibMACD f s g xs).1).setCol "MACD_signal"
        (talibMACD f s g xs).2.1).setCol "MACD_hist" (talibMACD f s g xs).2.2) := by
  unfold calculate_macd Frame.getColE
  rw [hclose]
  show Except.ok _ = Except.ok _
  simp only [Int.toNat_natCast, vals_map_some]

/-- C1. For every bar series with a close column and positive parameters
`fast ≤ slow`, `signal`, `calculate_macd` adds exactly the columns `MACD`,
`MACD_signal` and `MACD_hist`, where `MACD` (DIF) is `EMA(fast) - EMA(slow)`
of close, `MACD_signal` (DEA) is the EMA of DIF with period `signal`, and
`MACD_hist` is `(DIF - DEA) * 2` at every defined index; the warm-up for DIF
is `slow` and the warm-up for DEA and the histogram is `slow + signal - 1`,
with NaN sentinels before those positions. -/
theorem calculate_macd_adds_dif_dea_hist (df : Frame) (xs : List ℚ)
    (fast slow signal : Nat)
    (hf : 0 < fast) (hfs : fast ≤ slow) (hg : 0 < signal)
    (hclose : df.getCol "close" = some (xs.map some))
    (h1 : df.hasCol "MACD" = false) (h2 : df.hasCol "MACD_signal" = false)
    (h3 : df.hasCol "MACD_hist" = false) :
    MacdClaim df xs fast slow signal := by
  have hs : 0 < slow := lt_of_lt_of_le hf hfs
  set n := xs.length with hn
  set difAt : Nat → Cell :=
    fun i => cellSub (emaAt fast xs i) (emaAt slow xs i) with hdifAt
  set M : List Cell := (List.range n).map difAt with hM
  set difVals : List ℚ := (M.drop (slow - 1)).map (fun c => c.getD 0) with hdv
  set deaAt : Nat → Cell :=
    fun i => if i < slow - 1 then none else emaAt signal difVals (i - (slow - 1))
    with hdeaAt
  set S : List Cell := (List.range n).map deaAt with hS
  set H : List Cell := (List.range n).map (fun i => cellHist (difAt i) (deaAt i))
    with hH
  have ht : talibMACD fast slow signal xs = (M, S, H) := rfl
  set out := ((df.setCol "MACD" M).setCol "MACD_signal" S).setCol "MACD_hist" H
    with hout
  have hrun : calculate_macd df (fast : Int) (slow : Int) (signal : Int)
      = Except.ok out := by
    rw [calculate_macd_run df xs fast slow signal hclose, ht]
  have hdifNone : ∀ i, difAt i = none ↔ i + 1 < slow := by
    intro i
    rw [hdifAt]
    simp only [cellSub_eq_none_iff, emaAt_eq_none_iff fast xs i hf,
      emaAt_eq_none_iff slow xs i hs]
    omega
  have hdeaNone : ∀ i, deaAt i = none ↔ i + 1 < slow + signal - 1 := by
    intro i
    rw [hdeaAt]
    by_cases hi : i < slow - 1
    · simp only [if_pos hi, true_iff]
      omega
    · simp only [if_neg hi,
        emaAt_eq_none_iff signal difVals (i - (slow - 1)) hg]
      omega
  have e2 : (df.setCol "MACD" M).hasCol "MACD_signal" = false := by
    rw [hasCol_setCol_ne df "MACD" "MACD_signal" M (by decide)]
    exact h2
  have e3 : ((df.setCol "MACD" M).setCol "MACD_signal" S).hasCol "MACD_hist"
      = false := by
    rw [hasCol_setCol_ne _ "MACD_signal" "MACD_hist" S (by decide),
      hasCol_setCol_ne df "MACD" "MACD_hist" M (by decide)]
    exact h3
  refine ⟨out, M, S, H, hrun, ?_, ?_, ?_, ?_, ?_, ?_, ?_, ?_, ?_, ?_, ?_, ?_, ?_⟩
  · rw [hout, names_setCol_absent _ _ _ e3, names_setCol_absent _ _ _ e2,
      names_setCol_absent _ _ _ h1]
    simp
  · rw [hout, getCol_setCol_ne _ "MACD_hist" "MACD" _ (by decide),
      getCol_setCol_ne _ "MACD_signal" "MACD" _ (by decide),
      getCol_setCol_self]
  · rw [hout, getCol_setCol_ne _ "MACD_hist" "MACD_signal" _ (by decide),
      getCol_setCol_self]
  · rw [hout, getCol_setCol_self]
  · rw [hM]; simp
  · rw [hS]; simp
  · rw [hH]; simp
  · intro i hi
    rw [hM, range_map_getElem? difAt n i hi]
  · intro i hi
    rw [hM, range_map_getElem? difAt n i hi]
    rw [Option.some_inj]
    exact hdifNone i
  · intro i hi hislow
    rw [hS, range_map_getElem? deaAt n i hi]
    rw [hdeaAt]
    simp only [if_neg (by omega : ¬ i < slow - 1)]
  · intro i hi
    rw [hS, range_map_getElem? deaAt n i hi]
    rw [Option.some_inj]
    exact hdeaNone i
  · intro i hi a b hma hsb
    rw [hM, range_map_getElem? difAt n i hi] at hma
    rw [hS, range_map_getElem? deaAt n i hi] at hsb
    rw [hH, range_map_getElem? _ n i hi]
    rw [Option.some_inj.mp hma, Option.some_inj.mp hsb]
    rfl
  · intro i hi
    rw [hH, range_map_getElem? _ n i hi]
    rw [Option.some_inj]
    constructor
    · intro hnone
      rcases (cellHist_eq_none_iff _ _).mp hnone with h | h
      · have := (hdifNone i).mp h
        omega
      · exact (hdeaNone i).mp h
    · intro hlt
      exact (cellHist_eq_none_iff _ _).mpr (Or.inr ((hdeaNone i).mpr hlt))

/-- Witness for C1 at a concrete input: a three-bar close series with
`fast = 1`, `slow = 2`, `signal = 1`. -/
theorem calculate_macd_adds_dif_dea_hist_witness :
    MacdClaim ⟨[("close", [some 1, some 2, some 3])]⟩ [1, 2, 3] 1 2 1 :=
  calculate_macd_adds_dif_dea_hist ⟨[("close", [some 1, some 2, some 3])]⟩
    [1, 2, 3] 1 2 1 (by decide) (by decide) (by decide) (by decide)
    (by decide) (by decide) (by decide)

/-! ## Claim C4: weekly aggregation -/

theorem drop_takeWhile_length {α : Type} (p : α → Bool) :
    ∀ l : List α, l.drop (l.takeWhile p).length = l.dropWhile p := by
  intro l
  induction l with
  | nil => rfl
  | cons a t ih =>
    cases hp : p a
    · simp [List.takeWhile_cons, List.dropWhile_cons, hp]
    · simp [List.takeWhile_cons, List.dropWhile_cons, hp, ih]

theorem weeklyBucketsF_flatten : ∀ (fuel : Nat) (bars : List Bar),
    bars.length ≤ fuel → (weeklyBucketsF fuel bars).flatten = bars := by
  intro fuel
  induction fuel with
  | zero =>
    intro bars h
    rw [Nat.le_zero, List.length_eq_zero] at h
    subst h
    rfl
  | succ fuel ih =>
    intro bars h
    match bars with
    | [] => rfl
    | b :: rest =>
      show ((b :: _) :: weeklyBucketsF fuel _).flatten = _
      rw [List.flatten_cons]
      have hlen : (rest.drop (rest.takeWhile
          (fun x => nextFriday x.date == nextFriday b.date)).length).length
          ≤ fuel := by
        rw [List.length_drop]
        simp only [List.length_cons] at h
        omega
      rw [ih _ hlen, List.cons_append, drop_takeWhile_length]
      rw [List.takeWhile_append_dropWhile]

theorem weeklyBuckets_flatten (bars : List Bar) : (weeklyBuckets bars).flatten = bars :=
  weeklyBucketsF_flatten bars.length bars le_rfl

theorem weeklyBucketsF_shape : ∀ (fuel : Nat) (bars : List Bar),
    ∀ g ∈ weeklyBucketsF fuel bars, ∃ b rest, g = b :: rest ∧
      ∀ x ∈ g, nextFriday x.date = nextFriday b.date := by
  intro fuel
  induction fuel with
  | zero =>
    intro bars g hg
    simp [weeklyBucketsF] at hg
  | succ fuel ih =>
    intro bars g hg
    match bars with
    | [] => simp [weeklyBucketsF] at hg
    | b :: rest =>
      rw [show weeklyBucketsF (fuel + 1) (b :: rest)
          = (b :: rest.takeWhile (fun x => nextFriday x.date == nextFriday b.date))
            :: weeklyBucketsF fuel (rest.drop (rest.takeWhile
              (fun x => nextFriday x.date == nextFriday b.date)).length) from rfl,
        List.mem_cons] at hg
      rcases hg with hg | hg
      · refine ⟨b, _, hg, ?_⟩
        intro x hx
        rw [hg, List.mem_cons] at hx
        rcases hx with hx | hx
        · rw [hx]
        · have hbx := List.mem_takeWhile_imp hx
          exact beq_iff_eq.mp hbx
      · exact ih _ g hg

/-- A list of non-empty buckets aggregates by `filterMap` exactly as by
`map` of the head/tail aggregation. -/
theorem filterMap_agg_eq_map (L : List (List Bar))
    (h : ∀ g ∈ L, ∃ b rest, g = b :: rest) :
    (L.filterMap (fun g =>
      match g with
      | [] => none
      | b :: rest => some (aggBucket b rest)))
    = L.map (fun g => aggBucket (g.headD default) g.tail) := by
  induction L with
  | nil => rfl
  | cons g t ih =>
    obtain ⟨b, rest, hg⟩ := h g (List.mem_cons_self g t)
    subst hg
    show aggBucket b rest :: (t.filterMap _) = aggBucket b rest :: (t.map _)
    rw [ih (fun g hg => h g (List.mem_cons_of_mem _ hg))]

theorem resample_eq_map (bars : List Bar) :
    resample_to_weekly bars
      = (weeklyBuckets bars).map (fun g => aggBucket (g.headD default) g.tail) := by
  unfold resample_to_weekly
  apply filterMap_agg_eq_map
  intro g hg
  obtain ⟨b, rest, hg2, _⟩ := weeklyBucketsF_shape bars.length bars g hg
  exact ⟨b, rest, hg2⟩

theorem foldl_max_init_le (l : List ℚ) (init : ℚ) : init ≤ l.foldl max init := by
  induction l generalizing init with
  | nil => exact le_refl init
  | cons a t ih => exact le_trans (le_max_left init a) (ih (max init a))

theorem le_foldl_max_of_mem (l : List ℚ) (init x : ℚ) (hx : x ∈ l) :
    x ≤ l.foldl max init := by
  induction l generalizing init with
  | nil => simp at hx
  | cons a t ih =>
    rw [List.mem_cons] at hx
    rcases hx with hx | hx
    · subst hx
      show x ≤ t.foldl max (max init x)
      exact le_trans (le_max_right init x) (foldl_max_init_le t (max init x))
    · exact ih (max init a) hx

theorem foldl_max_mem (l : List ℚ) (init : ℚ) :
    l.foldl max init = init ∨ l.foldl max init ∈ l := by
  induction l generalizing init with
  | nil => exact Or.inl rfl
  | cons a t ih =>
    rcases ih (max init a) with h | h
    · rcases max_choice init a with hm | hm
      · exact Or.inl (by rw [List.foldl_cons, h, hm])
      · exact Or.inr (by rw [List.foldl_cons, h, hm]; exact List.mem_cons_self a t)
    · exact Or.inr (List.mem_cons_of_mem a h)

theorem foldl_min_le_init (l : List ℚ) (init : ℚ) : l.foldl min init ≤ init := by
  induction l generalizing init with
  | nil => exact le_refl init
  | cons a t ih => exact le_trans (ih (min init a)) (min_le_left init a)

theorem foldl_min_le_of_mem (l : List ℚ) (init x : ℚ) (hx : x ∈ l) :
    l.foldl min init ≤ x := by
  induction l generalizing init with
  | nil => simp at hx
  | cons a t ih =>
    rw [List.mem_cons] at hx
    rcases hx with hx | hx
    · subst hx
      show t.foldl min (min init x) ≤ x
      exact le_trans (foldl_min_le_init t (min init x)) (min_le_right init x)
    · exact ih (min init a) hx

theorem foldl_min_mem (l : List ℚ) (init : ℚ) :
    l.foldl min init = init ∨ l.foldl min init ∈ l := by
  induction l generalizing init with
  | nil => exact Or.inl rfl
  | cons a t ih =>
    rcases ih (min init a) with h | h
    · rcases min_choice init a with hm | hm
      · exact Or.inl (by rw [List.foldl_cons, h, hm])
      · exact Or.inr (by rw [List.foldl_cons, h, hm]; exact List.mem_cons_self a t)
    · exact Or.inr (List.mem_cons_of_mem a h)

theorem foldl_add_eq_sum (l : List ℚ) (init : ℚ) : l.foldl (· + ·) init = init + l.sum := by
  induction l generalizing init with
  | nil => simp
  | cons a t ih =>
    rw [List.foldl_cons, ih (init + a), List.sum_cons, add_assoc]

/-- The per-bucket facts of `aggBucket b rest` as the spec states them over
the whole bucket `b :: rest`. -/
theorem aggBucket_facts (b : Bar) (rest : List Bar) :
    (aggBucket b rest).date = nextFriday b.date ∧
    (aggBucket b rest).open_ = b.open_ ∧
    (aggBucket b rest).close = ((b :: rest).getLastD default).close ∧
    (aggBucket b rest).vol = ((b :: rest).map Bar.vol).sum ∧
    (aggBucket b rest).high ∈ (b :: rest).map Bar.high ∧
    (∀ x ∈ b :: rest, x.high ≤ (aggBucket b rest).high) ∧
    (aggBucket b rest).low ∈ (b :: rest).map Bar.low ∧
    (∀ x ∈ b :: rest, (aggBucket b rest).low ≤ x.low) := by
  have hfold : ∀ (g : Bar → ℚ) (f : ℚ → ℚ → ℚ) (init : ℚ),
      rest.foldl (fun m x => f m (g x)) init = (rest.map g).foldl f init := by
    intro g f init
    rw [List.foldl_map]
  refine ⟨rfl, rfl, ?_, ?_, ?_, ?_, ?_, ?_⟩
  · show (rest.getLastD b).close = ((b :: rest).getLastD default).close
    rw [List.getLastD_cons]
  · show rest.foldl (fun s x => s + x.vol) b.vol = ((b :: rest).map Bar.vol).sum
    rw [hfold Bar.vol (· + ·) b.vol, foldl_add_eq_sum, List.map_cons, List.sum_cons]
  · show rest.foldl (fun m x => max m x.high) b.high ∈ (b :: rest).map Bar.high
    rw [hfold Bar.high max b.high, List.map_cons]
    rcases foldl_max_mem (rest.map Bar.high) b.high with h | h
    · rw [h]
      exact List.mem_cons_self _ _
    · exact List.mem_cons_of_mem _ h
  · intro x hx
    show x.high ≤ rest.foldl (fun m x => max m x.high) b.high
    rw [hfold Bar.high max b.high]
    rw [List.mem_cons] at hx
    rcases hx with hx | hx
    · exact hx ▸ foldl_max_init_le (rest.map Bar.high) b.high
    · exact le_foldl_max_of_mem (rest.map Bar.high) b.high x.high
        (List.mem_map_of_mem Bar.high hx)
  · show rest.foldl (fun m x => min m x.low) b.low ∈ (b :: rest).map Bar.low
    rw [hfold Bar.low min b.low, List.map_cons]
    rcases foldl_min_mem (rest.map Bar.low) b.low with h | h
    · rw [h]
      exact List.mem_cons_self _ _
    · exact List.mem_cons_of_mem _ h
  · intro x hx
    show rest.foldl (fun m x => min m x.low) b.low ≤ x.low
    rw [hfold Bar.low min b.low]
    rw [List.mem_cons] at hx
    rcases hx with hx | hx
    · exact hx ▸ foldl_min_le_init (rest.map Bar.low) b.low
    · exact foldl_min_le_of_mem (rest.map Bar.low) b.low x.low
        (List.mem_map_of_mem Bar.low hx)

/-- C4. Weekly aggregation partitions an ascending daily bar series into
buckets keyed by the first Friday at or after each bucket's first bar's
date; every emitted bar aggregates one non-empty bucket with open = first
bar's open, high = max of highs, low = min of lows, close = last bar's
close, volume = sum of volumes, and output date = the bucket's closing
Friday; empty buckets are omitted (outputs and buckets correspond
one-to-one and the buckets partition the input), and 10 consecutive daily
bars spanning two Friday boundaries produce exactly 2 weekly bars. -/
theorem weekly_resample_spec :
    (∀ bars : List Bar, List.Chain' (fun a b => a.date < b.date) bars →
      (weeklyBuckets bars).flatten = bars ∧
      (resample_to_weekly bars).length = (weeklyBuckets bars).length ∧
      (∀ i, i < (weeklyBuckets bars).length →
        ∃ b rest, (weeklyBuckets bars)[i]? = some (b :: rest) ∧
          (resample_to_weekly bars)[i]? = some (aggBucket b rest) ∧
          (∀ x ∈ b :: rest, nextFriday x.date = nextFriday b.date) ∧
          (aggBucket b rest).date = nextFriday b.date ∧
          (aggBucket b rest).open_ = b.open_ ∧
          (aggBucket b rest).close = ((b :: rest).getLastD default).close ∧
          (aggBucket b rest).vol = ((b :: rest).map Bar.vol).sum ∧
          (aggBucket b rest).high ∈ (b :: rest).map Bar.high ∧
          (∀ x ∈ b :: rest, x.high ≤ (aggBucket b rest).high) ∧
          (aggBucket b rest).low ∈ (b :: rest).map Bar.low ∧
          (∀ x ∈ b :: rest, (aggBucket b rest).low ≤ x.low))) ∧
    resample_to_weekly tenDayRun
      = [⟨11, 5, 12, 4, 11, 7⟩, ⟨18, 12, 15, 11, 14, 3⟩] := by
  constructor
  · intro bars _
    refine ⟨weeklyBuckets_flatten bars, ?_, ?_⟩
    · rw [resample_eq_map, List.length_map]
    · intro i hi
      have hget : (weeklyBuckets bars)[i]? = some (weeklyBuckets bars)[i] :=
        List.getElem?_eq_getElem hi
      have hmem : (weeklyBuckets bars)[i] ∈ weeklyBuckets bars :=
        List.getElem_mem hi
      obtain ⟨b, rest, hshape, hkey⟩ :=
        weeklyBucketsF_shape bars.length bars _ hmem
      refine ⟨b, rest, by rw [hget, hshape], ?_, ?_, aggBucket_facts b rest⟩
      · rw [resample_eq_map, List.getElem?_map, hget, hshape]
        rfl
      · intro x hx
        exact hkey x (hshape ▸ hx)
  · show (weeklyBucketsF _ _).filterMap _ = _
    norm_num +decide [tenDayRun, mkDailyBar, weeklyBucketsF, aggBucket, nextFriday,
      List.takeWhile_cons, Bar.mk.injEq, List.filterMap_cons, List.foldl_cons,
      max_def, min_def]

/-- Witness for C4: the general component applied to the concrete ten-day
run, reading off its first bucket. -/
theorem weekly_resample_spec_witness :
    (weeklyBuckets tenDayRun).flatten = tenDayRun ∧
    (resample_to_weekly tenDayRun).length = (weeklyBuckets tenDayRun).length ∧
    (∀ i, i < (weeklyBuckets tenDayRun).length →
      ∃ b rest, (weeklyBuckets tenDayRun)[i]? = some (b :: rest) ∧
        (resample_to_weekly tenDayRun)[i]? = some (aggBucket b rest) ∧
        (∀ x ∈ b :: rest, nextFriday x.date = nextFriday b.date) ∧
        (aggBucket b rest).date = nextFriday b.date ∧
        (aggBucket b rest).open_ = b.open_ ∧
        (aggBucket b rest).close = ((b :: rest).getLastD default).close ∧
        (aggBucket b rest).vol = ((b :: rest).map Bar.vol).sum ∧
        (aggBucket b rest).high ∈ (b :: rest).map Bar.high ∧
        (∀ x ∈ b :: rest, x.high ≤ (aggBucket b rest).high) ∧
        (aggBucket b rest).low ∈ (b :: rest).map Bar.low ∧
        (∀ x ∈ b :: rest, (aggBucket b rest).low ≤ x.low)) :=
  weekly_resample_spec.1 tenDayRun (by simp +decide [tenDayRun, mkDailyBar, List.chain'_cons])

/-! ## Parser lemmas -/

theorem except_bind_ok {α β : Type} (a : α) (f : α → Except String β) :
    ((Except.ok a : Except String α) >>= f) = f a := rfl

theorem except_bind_error {α β : Type} (e : String) (f : α → Except String β) :
    ((Except.error e : Except String α) >>= f) = Except.error e := rfl

theorem except_map_ok {α β : Type} (f : α → β) (a : α) :
    (f <$> (Except.ok a : Except String α)) = Except.ok (f a) := rfl

theorem except_map_error {α β : Type} (f : α → β) (e : String) :
    (f <$> (Except.error e : Except String α)) = Except.error e := rfl

theorem data_append (s t : String) : (s ++ t).data = s.data ++ t.data := rfl

theorem strOf_data (s : String) : strOf s.data = s := rfl

theorem splitC_ne_nil (sep : Char) : ∀ l : List Char, splitC sep l ≠ [] := by
  intro l
  cases l with
  | nil => simp [splitC]
  | cons c rest =>
    unfold splitC
    by_cases hc : c = sep <;> simp [hc]

theorem joinC_splitC (sep : Char) : ∀ l : List Char, joinC sep (splitC sep l) = l := by
  intro l
  induction l with
  | nil => rfl
  | cons c rest ih =>
    obtain ⟨h, t, hht⟩ := List.exists_cons_of_ne_nil (splitC_ne_nil sep rest)
    unfold splitC
    by_cases hc : c = sep
    · rw [if_pos hc]
      show joinC sep ([] :: splitC sep rest) = c :: rest
      rw [hht]
      show [] ++ sep :: joinC sep (h :: t) = c :: rest
      rw [← hht, ih, hc]
      rfl
    · rw [if_neg hc, hht]
      show joinC sep ((c :: h) :: t) = c :: rest
      cases t with
      | nil =>
        show c :: h = c :: rest
        have := ih
        rw [hht] at this
        simpa [joinC] using this
      | cons t0 ts =>
        show (c :: h) ++ sep :: joinC sep (t0 :: ts) = c :: rest
        have := ih
        rw [hht] at this
        simp only [joinC] at this
        simpa [joinC] using this

theorem splitC_cons (sep c : Char) (l : List Char) :
    splitC sep (c :: l) = if c = sep then [] :: splitC sep l
      else (c :: (splitC sep l).headD []) :: (splitC sep l).tail := rfl

theorem splitFirst_sma (ps : String) : splitFirst ("sma:" ++ ps) ':' = ("sma", ps) := by
  unfold splitFirst
  have hd : ("sma:" ++ ps).data = 's' :: 'm' :: 'a' :: ':' :: ps.data := rfl
  rw [hd]
  obtain ⟨h, t, hht⟩ := List.exists_cons_of_ne_nil (splitC_ne_nil ':' ps.data)
  have e1 : splitC ':' (':' :: ps.data) = [] :: splitC ':' ps.data := by
    rw [splitC_cons, if_pos rfl]
  have e2 : splitC ':' ('a' :: ':' :: ps.data) = ['a'] :: splitC ':' ps.data := by
    rw [splitC_cons, if_neg (by decide : ¬('a' = ':')), e1]
    rfl
  have e3 : splitC ':' ('m' :: 'a' :: ':' :: ps.data)
      = ['m', 'a'] :: splitC ':' ps.data := by
    rw [splitC_cons, if_neg (by decide : ¬('m' = ':')), e2]
    rfl
  have hstep : splitC ':' ('s' :: 'm' :: 'a' :: ':' :: ps.data)
      = ['s', 'm', 'a'] :: splitC ':' ps.data := by
    rw [splitC_cons, if_neg (by decide : ¬('s' = ':')), e3]
    rfl
  rw [hstep, hht]
  show (strOf ['s', 'm', 'a'], strOf (joinC ':' (h :: t))) = ("sma", ps)
  rw [← hht, joinC_splitC, strOf_data]
  rfl

/-! ## Claim C8: separator selection and the empty specification -/

/-- C8. `parse` splits the specification into clauses on `;` whenever at
least one `;` occurs anywhere in the string, and on `|` only when no `;` is
present; an empty or all-whitespace specification parses to the empty
request list rather than an error. -/
theorem parse_separator_and_empty_spec :
    (∀ s : String, trimC s.data = [] → parse s = Except.ok []) ∧
    (∀ s : String, trimC s.data ≠ [] → containsC ';' s.data = true →
      parse s = parseParts ((splitC ';' s.data).map strOf)) ∧
    (∀ s : String, trimC s.data ≠ [] → containsC ';' s.data = false →
      parse s = parseParts ((splitC '|' s.data).map strOf)) := by
  refine ⟨?_, ?_, ?_⟩
  · intro s h
    simp [parse, h]
  · intro s h1 h2
    simp [parse, h1, h2]
  · intro s h1 h2
    simp [parse, h1, h2]

/-- Witness for C8: a `|`-separated spec with no `;` splits on `|`, and a
spec containing `;` splits on `;`. -/
theorem parse_separator_and_empty_spec_witness :
    parse "rsi:14|rsi:7"
      = parseParts ((splitC '|' ("rsi:14|rsi:7").data).map strOf) ∧
    parse "rsi:14;rsi:7"
      = parseParts ((splitC ';' ("rsi:14;rsi:7").data).map strOf) ∧
    parse "  " = Except.ok [] :=
  ⟨parse_separator_and_empty_spec.2.2 "rsi:14|rsi:7" (by decide) (by decide),
   parse_separator_and_empty_spec.2.1 "rsi:14;rsi:7" (by decide) (by decide),
   parse_separator_and_empty_spec.1 "  " (by decide)⟩

/-! ## Claim C10: empty clauses are skipped -/

/-- C10. `parse` skips empty clauses: a part that is empty after whitespace
trimming contributes no request and raises no error, so leading, trailing or
consecutive separators are harmless. -/
theorem parse_skips_empty_clauses :
    (∀ (l1 l2 : List String) (ws : String), trimC ws.data = [] →
      parseParts (l1 ++ ws :: l2) = parseParts (l1 ++ l2)) ∧
    parse "ma:5;;rsi:14" = Except.ok
      [⟨"ma", [("ma_type", PValue.s "sma"), ("periods", PValue.il [5])]⟩,
       ⟨"rsi", [("period", PValue.i 14)]⟩] ∧
    parse "rsi:14;" = Except.ok [⟨"rsi", [("period", PValue.i 14)]⟩] := by
  refine ⟨?_, by decide, by decide⟩
  intro l1 l2 ws hws
  have hclause : parseClause ws = Except.ok none := by
    unfold parseClause
    rw [hws]
    rfl
  have hstep : ∀ acc, parseStep acc ws = Except.ok acc := by
    intro acc
    unfold parseStep
    rw [hclause]
    rfl
  have main : ∀ (l1 : List String) (acc : List IndicatorRequest),
      (l1 ++ ws :: l2).foldlM parseStep acc = (l1 ++ l2).foldlM parseStep acc := by
    intro l1
    induction l1 with
    | nil =>
      intro acc
      show (ws :: l2).foldlM parseStep acc = l2.foldlM parseStep acc
      rw [List.foldlM_cons, hstep acc]
      rfl
    | cons a t ih =>
      intro acc
      show (a :: (t ++ ws :: l2)).foldlM parseStep acc
        = (a :: (t ++ l2)).foldlM parseStep acc
      rw [List.foldlM_cons, List.foldlM_cons]
      cases h : parseStep acc a with
      | error e => rfl
      | ok b =>
        show (t ++ ws :: l2).foldlM parseStep b = (t ++ l2).foldlM parseStep b
        exact ih b
  exact main l1 []

/-- Witness for C10: a whitespace clause between two parts is dropped. -/
theorem parse_skips_empty_clauses_witness :
    parseParts (["rsi:14"] ++ " " :: []) = parseParts (["rsi:14"] ++ []) :=
  parse_skips_empty_clauses.1 ["rsi:14"] [] " " (by decide)

/-! ## Claim C6: ma period parsing (corrected) -/

/-- C6 counterexample: `parse "ma:sma:0"` does not fail — the clause parses
successfully with period 0, so a non-positive period does reach the
Calculation Engine, contrary to the claim that each period must be a
positive integer. -/
theorem parse_ma_zero_period_accepted :
    parse "ma:sma:0" = Except.ok
      [⟨"ma", [("ma_type", PValue.s "sma"), ("periods", PValue.il [0])]⟩] := by
  decide

/-- C6 (amended). An `ma` clause's period entry is rejected exactly when it
fails Python's `int()` parsing; any integer literal — zero and negative
values included — is accepted with its integer value and no range check, so
non-positive periods reach the Calculation Engine. -/
theorem parse_ma_accepts_every_int_literal :
    (∀ ps : String, parseMaParams ("sma:" ++ ps)
      = match mapME (fun p => pyIntE (strOf (trimC p))) (splitC ',' ps.data) with
        | Except.ok periods =>
          Except.ok [("ma_type", PValue.s "sma"), ("periods", PValue.il periods)]
        | Except.error e => Except.error e) ∧
    pythonInt "0" = some 0 ∧
    pythonInt "-5" = some (-5) ∧
    parse "ma:-5" = Except.ok
      [⟨"ma", [("ma_type", PValue.s "sma"), ("periods", PValue.il [-5])]⟩] ∧
    parse "ma:sma:2x" = Except.error
      "Failed to parse ma parameters 'sma:2x': invalid literal for int() with base 10: '2x'" := by
  refine ⟨?_, by decide, by decide, by decide, by decide⟩
  intro ps
  unfold parseMaParams
  have hcontains : containsC ':' ("sma:" ++ ps).data = true := by
    show containsC ':' ('s' :: 'm' :: 'a' :: ':' :: ps.data) = true
    simp +decide [containsC]
  have htype : strOf (lowerC (trimC ("sma" : String).data)) = "sma" := by decide
  rw [hcontains]
  simp only [if_true, splitFirst_sma, htype]
  cases hm : mapME (fun p => pyIntE (strOf (trimC p))) (splitC ',' ps.data) with
  | ok v => simp [hm, except_bind_ok]
  | error e => simp [hm, except_bind_error]

/-! ## Claim C7: kdj arity and integer parsing (corrected) -/

/-- C7 counterexample: `parse "kdj:0-3-3"` succeeds although `0-3-3` is not
three positive integers, so the kdj grammar does not accept exactly the
three-positive-integer strings. -/
theorem parse_kdj_zero_accepted :
    parse "kdj:0-3-3" = Except.ok
      [⟨"kdj", [("fastk_period", PValue.i 0), ("slowk_period", PValue.i 3),
        ("slowd_period", PValue.i 3)]⟩] := by
  decide

/-- C7 (amended). A `kdj` parameter string parses successfully exactly when
it splits on `-` into exactly three parts each accepted by Python's `int()`
(hence nonnegative or `+`-signed, but not necessarily positive); any other
arity fails with the error stating that 3 parameters are expected, which
`parse` wraps with the offending id and parameter substring; a well-formed
multi-clause string yields its requests in clause order. -/
theorem parse_kdj_arity_and_integers :
    (∀ ps : String, ((∃ d, parseKdjParams ps = Except.ok d) ↔
      ∃ a b c, splitC '-' ps.data = [a, b, c] ∧
        (pythonInt (strOf a)).isSome ∧ (pythonInt (strOf b)).isSome ∧
        (pythonInt (strOf c)).isSome)) ∧
    (∀ ps : String, (splitC '-' ps.data).length ≠ 3 →
      parseKdjParams ps
        = Except.error "KDJ requires 3 parameters: fastk-slowk-slowd") ∧
    parse "kdj:9-3" = Except.error
      "Failed to parse kdj parameters '9-3': KDJ requires 3 parameters: fastk-slowk-slowd" ∧
    parse "kdj:9-3-3;rsi:14" = Except.ok
      [⟨"kdj", [("fastk_period", PValue.i 9), ("slowk_period", PValue.i 3),
        ("slowd_period", PValue.i 3)]⟩,
       ⟨"rsi", [("period", PValue.i 14)]⟩] := by
  refine ⟨?_, ?_, by decide, by decide⟩
  · intro ps
    unfold parseKdjParams
    match hsp : splitC '-' ps.data with
    | [] => simp [hsp]
    | [a] => simp [hsp]
    | [a, b] => simp [hsp]
    | [a, b, c] =>
      cases hpa : pythonInt (strOf a) with
      | none =>
        simp [pyIntE, hpa, hsp, except_bind_ok, except_bind_error,
          except_map_ok, except_map_error]
      | some f =>
        cases hpb : pythonInt (strOf b) with
        | none =>
          simp [pyIntE, hpa, hpb, hsp, except_bind_ok, except_bind_error,
            except_map_ok, except_map_error]
        | some k =>
          cases hpc : pythonInt (strOf c) with
          | none =>
            simp [pyIntE, hpa, hpb, hpc, hsp, except_bind_ok, except_bind_error,
              except_map_ok, except_map_error]
          | some d =>
            constructor
            · intro _
              exact ⟨a, b, c, rfl, by simp [hpa], by simp [hpb], by simp [hpc]⟩
            · intro _
              exact ⟨[("fastk_period", PValue.i f), ("slowk_period", PValue.i k),
                ("slowd_period", PValue.i d)],
                by simp [pyIntE, hpa, hpb, hpc, except_bind_ok, except_map_ok]⟩
    | a :: b :: c :: d :: rest => simp [hsp]
  · intro ps hlen
    unfold parseKdjParams
    match hsp : splitC '-' ps.data with
    | [] => rfl
    | [a] => rfl
    | [a, b] => rfl
    | [a, b, c] =>
      rw [hsp] at hlen
      simp at hlen
    | a :: b :: c :: d :: rest => rfl

/-- Witness for C7: the arity component applied at the concrete string
`9-3`, and the success characterization applied at `9-3-3`. -/
theorem parse_kdj_arity_and_integers_witness :
    parseKdjParams "9-3"
      = Except.error "KDJ requires 3 parameters: fastk-slowk-slowd" ∧
    (∃ d, parseKdjParams "9-3-3" = Except.ok d) :=
  ⟨parse_kdj_arity_and_integers.2.1 "9-3" (by decide),
   (parse_kdj_arity_and_integers.1 "9-3-3").mpr
     ⟨['9'], ['3'], ['3'], by decide, by decide, by decide, by decide⟩⟩

/-! ## Claim C9: unknown indicator ids are silently skipped -/

/-- C9. A request whose `indicator_id` is not one of ma, kdj, macd, rsi,
boll falls through the engine's dispatch: no error is raised, no column is
added for it, and the remaining requests are applied exactly as if the
request were absent. -/
theorem calculate_skips_unknown_id (df : Frame) (r : IndicatorRequest)
    (rs1 rs2 : List IndicatorRequest)
    (hid : r.indicator_id ∉ (["ma", "kdj", "macd", "rsi", "boll"] : List String)) :
    calculate df (rs1 ++ r :: rs2) = calculate df (rs1 ++ rs2) := by
  simp only [List.mem_cons, List.not_mem_nil, or_false, not_or] at hid
  obtain ⟨h1, h2, h3, h4, h5⟩ := hid
  have hskip : ∀ acc, applyRequest acc r = Except.ok acc := by
    intro acc
    unfold applyRequest
    rw [if_neg h1, if_neg h2, if_neg h3, if_neg h4, if_neg h5]
  have main : ∀ (l1 : List IndicatorRequest) (acc : Frame),
      (l1 ++ r :: rs2).foldlM applyRequest acc
        = (l1 ++ rs2).foldlM applyRequest acc := by
    intro l1
    induction l1 with
    | nil =>
      intro acc
      show (r :: rs2).foldlM applyRequest acc = rs2.foldlM applyRequest acc
      rw [List.foldlM_cons, hskip acc]
      rfl
    | cons a t ih =>
      intro acc
      show (a :: (t ++ r :: rs2)).foldlM applyRequest acc
        = (a :: (t ++ rs2)).foldlM applyRequest acc
      rw [List.foldlM_cons, List.foldlM_cons]
      cases h : applyRequest acc a with
      | error e => rfl
      | ok b =>
        show (t ++ r :: rs2).foldlM applyRequest b = (t ++ rs2).foldlM applyRequest b
        exact ih b
  unfold calculate
  rw [main rs1 df]

/-- Witness for C9: a request with the unknown id `vp` between two known
requests changes nothing. -/
theorem calculate_skips_unknown_id_witness :
    calculate ⟨[("close", [some 1])]⟩
        ([⟨"rsi", [("period", PValue.i 2)]⟩] ++ ⟨"vp", []⟩
          :: [⟨"rsi", [("period", PValue.i 3)]⟩])
      = calculate ⟨[("close", [some 1])]⟩
        ([⟨"rsi", [("period", PValue.i 2)]⟩] ++ [⟨"rsi", [("period", PValue.i 3)]⟩]) :=
  calculate_skips_unknown_id ⟨[("close", [some 1])]⟩ ⟨"vp", []⟩
    [⟨"rsi", [("period", PValue.i 2)]⟩] [⟨"rsi", [("period", PValue.i 3)]⟩]
    (by decide)

/-! ## Engine lemmas -/

theorem mk_append_ne (c : Char) (cs : List Char) (t n : String)
    (h : n.data.head? ≠ some c) : (String.mk (c :: cs) ++ t) ≠ n := by
  intro he
  have hd2 : c :: (cs ++ t.data) = n.data := congrArg String.data he
  exact h (by rw [← hd2]; rfl)

theorem prefixed_ne_ohlcv (t n : String) (hn : n ∈ ohlcvNames) :
    ("SMA" ++ t) ≠ n ∧ ("EMA" ++ t) ≠ n ∧ ("WMA" ++ t) ≠ n ∧ ("MA" ++ t) ≠ n := by
  fin_cases hn <;>
    exact ⟨mk_append_ne 'S' ['M', 'A'] t _ (by decide),
      mk_append_ne 'E' ['M', 'A'] t _ (by decide),
      mk_append_ne 'W' ['M', 'A'] t _ (by decide),
      mk_append_ne 'M' ['A'] t _ (by decide)⟩

theorem calculate_sma_run (df : Frame) (p : Int) (col : List Cell)
    (hc : df.getCol "close" = some col) :
    calculate_sma df p
      = Except.ok (df.setCol ("SMA" ++ toString p) (smaSeries p.toNat (vals col))) := by
  unfold calculate_sma Frame.getColE
  rw [hc]
  rfl

theorem calculate_sma_err (df : Frame) (p : Int) (hc : df.getCol "close" = none) :
    calculate_sma df p = Except.error "KeyError: close" := by
  unfold calculate_sma Frame.getColE
  rw [hc]
  rfl

theorem calculate_ema_run (df : Frame) (p : Int) (col : List Cell)
    (hc : df.getCol "close" = some col) :
    calculate_ema df p
      = Except.ok (df.setCol ("EMA" ++ toString p) (emaSeries p.toNat (vals col))) := by
  unfold calculate_ema Frame.getColE
  rw [hc]
  rfl

theorem calculate_ema_err (df : Frame) (p : Int) (hc : df.getCol "close" = none) :
    calculate_ema df p = Except.error "KeyError: close" := by
  unfold calculate_ema Frame.getColE
  rw [hc]
  rfl

theorem calculate_wma_run (df : Frame) (p : Int) (col : List Cell)
    (hc : df.getCol "close" = some col) :
    calculate_wma df p
      = Except.ok (df.setCol ("WMA" ++ toString p) (wmaSeries p.toNat (vals col))) := by
  unfold calculate_wma Frame.getColE
  rw [hc]
  rfl

theorem calculate_wma_err (df : Frame) (p : Int) (hc : df.getCol "close" = none) :
    calculate_wma df p = Except.error "KeyError: close" := by
  unfold calculate_wma Frame.getColE
  rw [hc]
  rfl

theorem calculate_macd_run2 (df : Frame) (f s g : Int) (col : List Cell)
    (hc : df.getCol "close" = some col) :
    calculate_macd df f s g = Except.ok
      (((df.setCol "MACD" (talibMACD f.toNat s.toNat g.toNat (vals col)).1).setCol
          "MACD_signal" (talibMACD f.toNat s.toNat g.toNat (vals col)).2.1).setCol
        "MACD_hist" (talibMACD f.toNat s.toNat g.toNat (vals col)).2.2) := by
  unfold calculate_macd Frame.getColE
  rw [hc]
  rfl

theorem calculate_macd_err (df : Frame) (f s g : Int)
    (hc : df.getCol "close" = none) :
    calculate_macd df f s g = Except.error "KeyError: close" := by
  unfold calculate_macd Frame.getColE
  rw [hc]
  rfl

theorem calculate_rsi_run (df : Frame) (p : Int) (col : List Cell)
    (hc : df.getCol "close" = some col) :
    calculate_rsi df p
      = Except.ok (df.setCol "RSI" (rsiSeries p.toNat (vals col))) := by
  unfold calculate_rsi Frame.getColE
  rw [hc]
  rfl

theorem calculate_rsi_err (df : Frame) (p : Int) (hc : df.getCol "close" = none) :
    calculate_rsi df p = Except.error "KeyError: close" := by
  unfold calculate_rsi Frame.getColE
  rw [hc]
  rfl

theorem calculate_boll_run (df : Frame) (p : Int) (u d : ℚ) (col : List Cell)
    (hc : df.getCol "close" = some col) :
    calculate_bollinger_bands df p u d = Except.ok
      (((df.setCol "BOLL_upper" (bbandsTriple p.toNat u d (vals col)).1).setCol
          "BOLL_middle" (bbandsTriple p.toNat u d (vals col)).2.1).setCol
        "BOLL_lower" (bbandsTriple p.toNat u d (vals col)).2.2) := by
  unfold calculate_bollinger_bands Frame.getColE
  rw [hc]
  rfl

theorem calculate_boll_err (df : Frame) (p : Int) (u d : ℚ)
    (hc : df.getCol "close" = none) :
    calculate_bollinger_bands df p u d = Except.error "KeyError: close" := by
  unfold calculate_bollinger_bands Frame.getColE
  rw [hc]
  rfl

theorem calculate_kdj_run (df : Frame) (a b c : Int) (hcol lcol ccol : List Cell)
    (hh : df.getCol "high" = some hcol) (hl : df.getCol "low" = some lcol)
    (hc : df.getCol "close" = some ccol) :
    calculate_kdj df a b c = Except.ok
      (((df.setCol "K" (kdjTriple a.toNat b.toNat c.toNat (vals hcol) (vals lcol)
          (vals ccol)).1).setCol
        "D" (kdjTriple a.toNat b.toNat c.toNat (vals hcol) (vals lcol)
          (vals ccol)).2.1).setCol
        "J" (kdjTriple a.toNat b.toNat c.toNat (vals hcol) (vals lcol)
          (vals ccol)).2.2) := by
  unfold calculate_kdj Frame.getColE
  rw [hh, hl, hc]
  rfl

theorem calculate_kdj_err1 (df : Frame) (a b c : Int)
    (hh : df.getCol "high" = none) :
    calculate_kdj df a b c = Except.error "KeyError: high" := by
  unfold calculate_kdj Frame.getColE
  rw [hh]
  rfl

theorem calculate_kdj_err2 (df : Frame) (a b c : Int) (hcol : List Cell)
    (hh : df.getCol "high" = some hcol) (hl : df.getCol "low" = none) :
    calculate_kdj df a b c = Except.error "KeyError: low" := by
  unfold calculate_kdj Frame.getColE
  rw [hh, hl]
  rfl

theorem calculate_kdj_err3 (df : Frame) (a b c : Int) (hcol lcol : List Cell)
    (hh : df.getCol "high" = some hcol) (hl : df.getCol "low" = some lcol)
    (hc : df.getCol "close" = none) :
    calculate_kdj df a b c = Except.error "KeyError: close" := by
  unfold calculate_kdj Frame.getColE
  rw [hh, hl, hc]
  rfl

theorem calculate_sma_preserves : ∀ (g : Frame) (p : Int) (o : Frame),
    calculate_sma g p = Except.ok o → ∀ n ∈ ohlcvNames, o.getCol n = g.getCol n := by
  intro g p o h n hn
  cases hc : g.getCol "close" with
  | none => rw [calculate_sma_err g p hc] at h; exact Except.noConfusion h
  | some col =>
    rw [calculate_sma_run g p col hc] at h
    injection h with h2
    rw [← h2]
    exact getCol_setCol_ne g _ n _ (Ne.symm (prefixed_ne_ohlcv (toString p) n hn).1)

theorem calculate_ema_preserves : ∀ (g : Frame) (p : Int) (o : Frame),
    calculate_ema g p = Except.ok o → ∀ n ∈ ohlcvNames, o.getCol n = g.getCol n := by
  intro g p o h n hn
  cases hc : g.getCol "close" with
  | none => rw [calculate_ema_err g p hc] at h; exact Except.noConfusion h
  | some col =>
    rw [calculate_ema_run g p col hc] at h
    injection h with h2
    rw [← h2]
    exact getCol_setCol_ne g _ n _ (Ne.symm (prefixed_ne_ohlcv (toString p) n hn).2.1)

theorem calculate_wma_preserves : ∀ (g : Frame) (p : Int) (o : Frame),
    calculate_wma g p = Except.ok o → ∀ n ∈ ohlcvNames, o.getCol n = g.getCol n := by
  intro g p o h n hn
  cases hc : g.getCol "close" with
  | none => rw [calculate_wma_err g p hc] at h; exact Except.noConfusion h
  | some col =>
    rw [calculate_wma_run g p col hc] at h
    injection h with h2
    rw [← h2]
    exact getCol_setCol_ne g _ n _ (Ne.symm (prefixed_ne_ohlcv (toString p) n hn).2.2.1)

theorem calculate_macd_preserves (g : Frame) (f s d : Int) (o : Frame)
    (h : calculate_macd g f s d = Except.ok o) :
    ∀ n ∈ ohlcvNames, o.getCol n = g.getCol n := by
  intro n hn
  cases hc : g.getCol "close" with
  | none => rw [calculate_macd_err g f s d hc] at h; exact Except.noConfusion h
  | some col =>
    rw [calculate_macd_run2 g f s d col hc] at h
    injection h with h2
    rw [← h2,
      getCol_setCol_ne _ _ n _ (by fin_cases hn <;> decide),
      getCol_setCol_ne _ _ n _ (by fin_cases hn <;> decide),
      getCol_setCol_ne _ _ n _ (by fin_cases hn <;> decide)]

theorem calculate_rsi_preserves (g : Frame) (p : Int) (o : Frame)
    (h : calculate_rsi g p = Except.ok o) :
    ∀ n ∈ ohlcvNames, o.getCol n = g.getCol n := by
  intro n hn
  cases hc : g.getCol "close" with
  | none => rw [calculate_rsi_err g p hc] at h; exact Except.noConfusion h
  | some col =>
    rw [calculate_rsi_run g p col hc] at h
    injection h with h2
    rw [← h2, getCol_setCol_ne _ _ n _ (by fin_cases hn <;> decide)]

theorem calculate_boll_preserves (g : Frame) (p : Int) (u d : ℚ) (o : Frame)
    (h : calculate_bollinger_bands g p u d = Except.ok o) :
    ∀ n ∈ ohlcvNames, o.getCol n = g.getCol n := by
  intro n hn
  cases hc : g.getCol "close" with
  | none => rw [calculate_boll_err g p u d hc] at h; exact Except.noConfusion h
  | some col =>
    rw [calculate_boll_run g p u d col hc] at h
    injection h with h2
    rw [← h2,
      getCol_setCol_ne _ _ n _ (by fin_cases hn <;> decide),
      getCol_setCol_ne _ _ n _ (by fin_cases hn <;> decide),
      getCol_setCol_ne _ _ n _ (by fin_cases hn <;> decide)]

theorem calculate_kdj_preserves (g : Frame) (a b c : Int) (o : Frame)
    (h : calculate_kdj g a b c = Except.ok o) :
    ∀ n ∈ ohlcvNames, o.getCol n = g.getCol n := by
  intro n hn
  cases hh : g.getCol "high" with
  | none => rw [calculate_kdj_err1 g a b c hh] at h; exact Except.noConfusion h
  | some hcol =>
    cases hl : g.getCol "low" with
    | none => rw [calculate_kdj_err2 g a b c hcol hh hl] at h; exact Except.noConfusion h
    | some lcol =>
      cases hc : g.getCol "close" with
      | none =>
        rw [calculate_kdj_err3 g a b c hcol lcol hh hl hc] at h
        exact Except.noConfusion h
      | some ccol =>
        rw [calculate_kdj_run g a b c hcol lcol ccol hh hl hc] at h
        injection h with h2
        rw [← h2,
          getCol_setCol_ne _ _ n _ (by fin_cases hn <;> decide),
          getCol_setCol_ne _ _ n _ (by fin_cases hn <;> decide),
          getCol_setCol_ne _ _ n _ (by fin_cases hn <;> decide)]

theorem maStep_preserves (cf : Frame → Int → Except String Frame) (pre : String)
    (hpre : pre = "SMA" ∨ pre = "EMA" ∨ pre = "WMA")
    (hcf : ∀ g p o, cf g p = Except.ok o → ∀ n ∈ ohlcvNames, o.getCol n = g.getCol n) :
    ∀ (g : Frame) (p : Int) (out : Frame), maStep cf pre g p = Except.ok out →
      ∀ n ∈ ohlcvNames, out.getCol n = g.getCol n := by
  intro g p out h n hn
  unfold maStep at h
  cases hs : cf g p with
  | error e =>
    rw [hs, except_bind_error] at h
    exact Except.noConfusion h
  | ok r2 =>
    rw [hs, except_bind_ok] at h
    have hr2 := hcf g p r2 hs
    have hma := prefixed_ne_ohlcv (toString p) n hn
    have hpren : (pre ++ toString p) ≠ n := by
      rcases hpre with hp | hp | hp <;> rw [hp]
      · exact hma.1
      · exact hma.2.1
      · exact hma.2.2.1
    cases hg : r2.getCol (pre ++ toString p) with
    | none =>
      simp only [hg] at h
      have h2 : Except.ok r2 = Except.ok out := h
      injection h2 with h3
      rw [← h3]
      exact hr2 n hn
    | some v =>
      simp only [hg] at h
      have h2 : Except.ok ((r2.setCol ("MA" ++ toString p) v).dropCol
        (pre ++ toString p)) = Except.ok out := h
      injection h2 with h3
      rw [← h3, getCol_dropCol_ne _ _ n (Ne.symm hpren),
        getCol_setCol_ne _ _ n _ (Ne.symm hma.2.2.2)]
      exact hr2 n hn

theorem foldlM_preserves_getCol {β : Type} (step : Frame → β → Except String Frame)
    (hstep : ∀ g b o, step g b = Except.ok o →
      ∀ n ∈ ohlcvNames, o.getCol n = g.getCol n) :
    ∀ (l : List β) (g out : Frame), l.foldlM step g = Except.ok out →
      ∀ n ∈ ohlcvNames, out.getCol n = g.getCol n := by
  intro l
  induction l with
  | nil =>
    intro g out h n hn
    have h2 : Except.ok g = Except.ok out := h
    injection h2 with h3
    rw [← h3]
  | cons b t ih =>
    intro g out h n hn
    rw [List.foldlM_cons] at h
    cases hs : step g b with
    | error e =>
      rw [hs, except_bind_error] at h
      exact Except.noConfusion h
    | ok g1 =>
      rw [hs, except_bind_ok] at h
      rw [ih g1 out h n hn]
      exact hstep g b g1 hs n hn

theorem foldlM_ok {β : Type} (step : Frame → β → Except String Frame)
    (Pres : Frame → Prop) (Q : β → Prop)
    (hstep : ∀ g b, Q b → Pres g → ∃ o, step g b = Except.ok o ∧ Pres o) :
    ∀ (l : List β) (g : Frame), (∀ b ∈ l, Q b) → Pres g →
      ∃ out, l.foldlM step g = Except.ok out ∧ Pres out := by
  intro l
  induction l with
  | nil =>
    intro g _ hp
    exact ⟨g, rfl, hp⟩
  | cons b t ih =>
    intro g hQ hp
    obtain ⟨g1, hs, hp1⟩ := hstep g b (hQ b (List.mem_cons_self b t)) hp
    obtain ⟨out, hfold, hpo⟩ := ih g1 (fun x hx => hQ x (List.mem_cons_of_mem b hx)) hp1
    refine ⟨out, ?_, hpo⟩
    rw [List.foldlM_cons, hs, except_bind_ok]
    exact hfold

theorem maStep_ok (cf : Frame → Int → Except String Frame) (pre : String)
    (hpre : pre = "SMA" ∨ pre = "EMA" ∨ pre = "WMA")
    (hcfok : ∀ (g : Frame) (p : Int), (g.getCol "close").isSome →
      ∃ r2, cf g p = Except.ok r2)
    (hcf : ∀ g p o, cf g p = Except.ok o →
      ∀ n ∈ ohlcvNames, o.getCol n = g.getCol n) :
    ∀ (g : Frame) (p : Int), (g.getCol "close").isSome →
      ∃ out, maStep cf pre g p = Except.ok out ∧ (out.getCol "close").isSome := by
  intro g p hp
  obtain ⟨r2, hr2⟩ := hcfok g p hp
  have hok : ∃ out, maStep cf pre g p = Except.ok out := by
    unfold maStep
    rw [hr2, except_bind_ok]
    cases hg : r2.getCol (pre ++ toString p) with
    | none =>
      simp only [hg]
      exact ⟨r2, rfl⟩
    | some v =>
      simp only [hg]
      exact ⟨_, rfl⟩
  obtain ⟨out, hout⟩ := hok
  have hpres := maStep_preserves cf pre hpre hcf g p out hout "close" (by decide)
  exact ⟨out, hout, by rw [hpres]; exact hp⟩

theorem calcMaReq_preserves (df : Frame) (ps : Params) (out : Frame)
    (h : calcMaReq df ps = Except.ok out) :
    ∀ n ∈ ohlcvNames, out.getCol n = df.getCol n := by
  simp only [calcMaReq] at h
  by_cases h1 : strOf (lowerC (getS ps "ma_type" "sma").data) = "sma"
  · rw [if_pos h1] at h
    exact foldlM_preserves_getCol _
      (maStep_preserves calculate_sma "SMA" (Or.inl rfl) calculate_sma_preserves)
      _ df out h
  · rw [if_neg h1] at h
    by_cases h2 : strOf (lowerC (getS ps "ma_type" "sma").data) = "ema"
    · rw [if_pos h2] at h
      exact foldlM_preserves_getCol _
        (maStep_preserves calculate_ema "EMA" (Or.inr (Or.inl rfl))
          calculate_ema_preserves) _ df out h
    · rw [if_neg h2] at h
      by_cases h3 : strOf (lowerC (getS ps "ma_type" "sma").data) = "wma"
      · rw [if_pos h3] at h
        exact foldlM_preserves_getCol _
          (maStep_preserves calculate_wma "WMA" (Or.inr (Or.inr rfl))
            calculate_wma_preserves) _ df out h
      · rw [if_neg h3] at h
        exact absurd h (by simp)

theorem applyRequest_preserves : ∀ (df : Frame) (r : IndicatorRequest) (out : Frame),
    applyRequest df r = Except.ok out →
    ∀ n ∈ ohlcvNames, out.getCol n = df.getCol n := by
  intro df r out h
  unfold applyRequest at h
  by_cases h1 : r.indicator_id = "ma"
  · rw [if_pos h1] at h
    exact calcMaReq_preserves df r.parameters out h
  · rw [if_neg h1] at h
    by_cases h2 : r.indicator_id = "kdj"
    · rw [if_pos h2] at h
      exact calculate_kdj_preserves df _ _ _ out h
    · rw [if_neg h2] at h
      by_cases h3 : r.indicator_id = "macd"
      · rw [if_pos h3] at h
        exact calculate_macd_preserves df _ _ _ out h
      · rw [if_neg h3] at h
        by_cases h4 : r.indicator_id = "rsi"
        · rw [if_pos h4] at h
          exact calculate_rsi_preserves df _ out h
        · rw [if_neg h4] at h
          by_cases h5 : r.indicator_id = "boll"
          · rw [if_pos h5] at h
            exact calculate_boll_preserves df _ _ _ out h
          · rw [if_neg h5] at h
            injection h with h6
            rw [← h6]
            intro n _
            rfl

theorem applyRequest_ok (df : Frame) (r : IndicatorRequest)
    (hq : MaTypeOk r) (hp : HasHLC df) :
    ∃ out, applyRequest df r = Except.ok out ∧ HasHLC out := by
  obtain ⟨hc, hh, hl⟩ := hp
  have hfin : ∀ out, applyRequest df r = Except.ok out → HasHLC out := by
    intro out hout
    have hpres := applyRequest_preserves df r out hout
    exact ⟨by rw [hpres "close" (by decide)]; exact hc,
      by rw [hpres "high" (by decide)]; exact hh,
      by rw [hpres "low" (by decide)]; exact hl⟩
  have hok : ∃ out, applyRequest df r = Except.ok out := by
    unfold applyRequest
    by_cases h1 : r.indicator_id = "ma"
    · rw [if_pos h1]
      simp only [calcMaReq]
      have hmem := hq h1
      simp only [List.mem_cons, List.not_mem_nil, or_false] at hmem
      have hfold : ∀ (cf : Frame → Int → Except String Frame) (pre : String),
          (pre = "SMA" ∨ pre = "EMA" ∨ pre = "WMA") →
          (∀ (g : Frame) (p : Int), (g.getCol "close").isSome →
            ∃ r2, cf g p = Except.ok r2) →
          (∀ g p o, cf g p = Except.ok o →
            ∀ n ∈ ohlcvNames, o.getCol n = g.getCol n) →
          ∃ out, (getIl r.parameters "periods" [20]).foldlM (maStep cf pre) df
            = Except.ok out := by
        intro cf pre hpre hcfok hcf
        obtain ⟨out, hfold2, _⟩ := foldlM_ok (maStep cf pre)
          (fun g => (g.getCol "close").isSome) (fun _ => True)
          (fun g b _ hpg => maStep_ok cf pre hpre hcfok hcf g b hpg)
          (getIl r.parameters "periods" [20]) df (fun _ _ => trivial) hc
        exact ⟨out, hfold2⟩
      rcases hmem with hm | hm | hm
      · rw [if_pos hm]
        exact hfold calculate_sma "SMA" (Or.inl rfl)
          (fun g p hpg => by
            obtain ⟨col, hcol⟩ := Option.isSome_iff_exists.mp hpg
            exact ⟨_, calculate_sma_run g p col hcol⟩)
          calculate_sma_preserves
      · rw [if_neg (by rw [hm]; decide), if_pos hm]
        exact hfold calculate_ema "EMA" (Or.inr (Or.inl rfl))
          (fun g p hpg => by
            obtain ⟨col, hcol⟩ := Option.isSome_iff_exists.mp hpg
            exact ⟨_, calculate_ema_run g p col hcol⟩)
          calculate_ema_preserves
      · rw [if_neg (by rw [hm]; decide), if_neg (by rw [hm]; decide), if_pos hm]
        exact hfold calculate_wma "WMA" (Or.inr (Or.inr rfl))
          (fun g p hpg => by
            obtain ⟨col, hcol⟩ := Option.isSome_iff_exists.mp hpg
            exact ⟨_, calculate_wma_run g p col hcol⟩)
          calculate_wma_preserves
    · rw [if_neg h1]
      obtain ⟨ccol, hccol⟩ := Option.isSome_iff_exists.mp hc
      obtain ⟨hcolv, hhcol⟩ := Option.isSome_iff_exists.mp hh
      obtain ⟨lcolv, hlcol⟩ := Option.isSome_iff_exists.mp hl
      by_cases h2 : r.indicator_id = "kdj"
      · rw [if_pos h2]
        exact ⟨_, calculate_kdj_run df _ _ _ hcolv lcolv ccol hhcol hlcol hccol⟩
      · rw [if_neg h2]
        by_cases h3 : r.indicator_id = "macd"
        · rw [if_pos h3]
          exact ⟨_, calculate_macd_run2 df _ _ _ ccol hccol⟩
        · rw [if_neg h3]
          by_cases h4 : r.indicator_id = "rsi"
          · rw [if_pos h4]
            exact ⟨_, calculate_rsi_run df _ ccol hccol⟩
          · rw [if_neg h4]
            by_cases h5 : r.indicator_id = "boll"
            · rw [if_pos h5]
              exact ⟨_, calculate_boll_run df _ _ _ ccol hccol⟩
            · rw [if_neg h5]
              exact ⟨df, rfl⟩
  obtain ⟨out, hout⟩ := hok
  exact ⟨out, hout, hfin out hout⟩

theorem map_fill0_of_allsome (col : List Cell) (h : ∀ x ∈ col, x.isSome) :
    col.map fill0 = col := by
  induction col with
  | nil => rfl
  | cons x t ih =>
    have hx := h x (List.mem_cons_self x t)
    obtain ⟨v, hv⟩ := Option.isSome_iff_exists.mp hx
    rw [List.map_cons, ih (fun y hy => h y (List.mem_cons_of_mem x hy)), hv]
    rfl

/-! ## Claim C5: the engine never mutates OHLCV -/

/-- C5. For every input frame and request list on which the engine succeeds,
each OHLCV column (open, high, low, close, volume/vol) of a bar series — a
column with no NaN — comes out value-for-value identical: the engine only
appends indicator columns and never writes OHLCV names. -/
theorem calculate_preserves_ohlcv :
    ∀ (df : Frame) (rs : List IndicatorRequest) (out : Frame),
      calculate df rs = Except.ok out →
      ∀ n ∈ ohlcvNames, ∀ col, df.getCol n = some col →
        (∀ x ∈ col, x.isSome) → out.getCol n = some col := by
  intro df rs out h n hn col hcol hsome
  unfold calculate at h
  cases hf : rs.foldlM applyRequest df with
  | error e =>
    rw [hf, except_bind_error] at h
    exact Except.noConfusion h
  | ok mid =>
    rw [hf, except_bind_ok] at h
    have h2 : Except.ok mid.fillna0 = Except.ok out := h
    injection h2 with h3
    rw [← h3, getCol_fillna0,
      foldlM_preserves_getCol applyRequest applyRequest_preserves rs df mid hf n hn,
      hcol]
    rw [Option.map_some', map_fill0_of_allsome col hsome]

/-- Witness for C5: a one-column close frame with no requests round-trips. -/
theorem calculate_preserves_ohlcv_witness :
    (Frame.fillna0 ⟨[("close", [some 1])]⟩).getCol "close" = some [some 1] :=
  calculate_preserves_ohlcv ⟨[("close", [some 1])]⟩ []
    (Frame.fillna0 ⟨[("close", [some 1])]⟩) (by decide) "close" (by decide)
    [some 1] (by decide) (by decide)

/-! ## Claim C3: NaN-to-zero finalization, and short history never raises -/

/-- C3. After the engine applies every request, every NaN in every column of
the returned frame has been replaced by the literal 0 — no NaN survives in
any produced column; and for a bar series (close/high/low present) and
requests whose `ma` entries carry a known MA type, the engine always
succeeds — in particular an input with fewer observations than any warm-up
yields all-sentinel columns rather than an error. -/
theorem calculate_fillna_zero_and_short_history :
    (∀ (df : Frame) (rs : List IndicatorRequest) (out : Frame),
      calculate df rs = Except.ok out →
      ∃ mid, rs.foldlM applyRequest df = Except.ok mid ∧ out = mid.fillna0) ∧
    (∀ (df : Frame) (rs : List IndicatorRequest) (out : Frame),
      calculate df rs = Except.ok out →
      ∀ c ∈ out.cols, ∀ x ∈ c.2, x.isSome) ∧
    (∀ (df : Frame) (rs : List IndicatorRequest),
      HasHLC df → (∀ r ∈ rs, MaTypeOk r) →
      ∃ out, calculate df rs = Except.ok out) := by
  refine ⟨?_, ?_, ?_⟩
  · intro df rs out h
    unfold calculate at h
    cases hf : rs.foldlM applyRequest df with
    | error e =>
      rw [hf, except_bind_error] at h
      exact Except.noConfusion h
    | ok mid =>
      rw [hf, except_bind_ok] at h
      have h2 : Except.ok mid.fillna0 = Except.ok out := h
      injection h2 with h3
      exact ⟨mid, rfl, h3.symm⟩
  · intro df rs out h c hc x hx
    unfold calculate at h
    cases hf : rs.foldlM applyRequest df with
    | error e =>
      rw [hf, except_bind_error] at h
      exact Except.noConfusion h
    | ok mid =>
      rw [hf, except_bind_ok] at h
      have h2 : Except.ok mid.fillna0 = Except.ok out := h
      injection h2 with h3
      rw [← h3] at hc
      unfold Frame.fillna0 at hc
      obtain ⟨c0, _, hc0⟩ := List.mem_map.mp hc
      rw [← hc0] at hx
      obtain ⟨y, _, hy⟩ := List.mem_map.mp hx
      rw [← hy]
      rfl
  · intro df rs hp hq
    obtain ⟨mid, hfold, _⟩ := foldlM_ok applyRequest HasHLC MaTypeOk
      applyRequest_ok rs df hq hp
    refine ⟨mid.fillna0, ?_⟩
    unfold calculate
    rw [hfold, except_bind_ok]

/-- Witness for C3: a one-row bar series with a 26-period MACD and a
9-3-3 KDJ request — far less history than any warm-up — still succeeds. -/
theorem calculate_fillna_zero_and_short_history_witness :
    ∃ out, calculate ⟨[("high", [some 2]), ("low", [some 1]), ("close", [some 1])]⟩
      [⟨"macd", [("fast_period", PValue.i 12), ("slow_period", PValue.i 26),
        ("signal_period", PValue.i 9)]⟩,
       ⟨"kdj", [("fastk_period", PValue.i 9), ("slowk_period", PValue.i 3),
        ("slowd_period", PValue.i 3)]⟩] = Except.ok out :=
  calculate_fillna_zero_and_short_history.2.2
    ⟨[("high", [some 2]), ("low", [some 1]), ("close", [some 1])]⟩ _
    ⟨by decide, by decide, by decide⟩
    (by
      intro r hr
      fin_cases hr <;> (intro hid; exact absurd hid (by decide)))

/-! ## Claim C2: MA renaming and last-write-wins -/

theorem maStep_run (cf : Frame → Int → Except String Frame) (pre : String)
    (ser : Nat → List ℚ → List Cell)
    (hrun : ∀ (g : Frame) (q : Int) (col : List Cell), g.getCol "close" = some col →
      cf g q = Except.ok (g.setCol (pre ++ toString q) (ser q.toNat (vals col))))
    (g : Frame) (p : Int) (col : List Cell) (hclose : g.getCol "close" = some col) :
    maStep cf pre g p = Except.ok
      (((g.setCol (pre ++ toString p) (ser p.toNat (vals col))).setCol
        ("MA" ++ toString p) (ser p.toNat (vals col))).dropCol (pre ++ toString p)) := by
  unfold maStep
  rw [hrun g p col hclose, except_bind_ok]
  simp only [getCol_setCol_self]
  rfl

theorem calcMaReq_sma_run (df : Frame) (col : List Cell) (p : Int)
    (hclose : df.getCol "close" = some col) :
    calcMaReq df [("ma_type", PValue.s "sma"), ("periods", PValue.il [p])]
      = Except.ok
        (((df.setCol ("SMA" ++ toString p) (smaSeries p.toNat (vals col))).setCol
          ("MA" ++ toString p) (smaSeries p.toNat (vals col))).dropCol
          ("SMA" ++ toString p)) := by
  simp only [calcMaReq]
  rw [show strOf (lowerC (getS [("ma_type", PValue.s "sma"),
    ("periods", PValue.il [p])] "ma_type" "sma").data) = "sma" from rfl]
  rw [if_pos rfl]
  rw [show getIl [("ma_type", PValue.s "sma"), ("periods", PValue.il [p])]
    "periods" [20] = [p] from rfl]
  rw [List.foldlM_cons,
    maStep_run calculate_sma "SMA" smaSeries calculate_sma_run df p col hclose,
    except_bind_ok]
  rfl

theorem calcMaReq_ema_run (df : Frame) (col : List Cell) (p : Int)
    (hclose : df.getCol "close" = some col) :
    calcMaReq df [("ma_type", PValue.s "ema"), ("periods", PValue.il [p])]
      = Except.ok
        (((df.setCol ("EMA" ++ toString p) (emaSeries p.toNat (vals col))).setCol
          ("MA" ++ toString p) (emaSeries p.toNat (vals col))).dropCol
          ("EMA" ++ toString p)) := by
  simp only [calcMaReq]
  rw [show strOf (lowerC (getS [("ma_type", PValue.s "ema"),
    ("periods", PValue.il [p])] "ma_type" "sma").data) = "ema" from rfl]
  rw [if_neg (by decide : ¬(("ema" : String) = "sma")), if_pos rfl]
  rw [show getIl [("ma_type", PValue.s "ema"), ("periods", PValue.il [p])]
    "periods" [20] = [p] from rfl]
  rw [List.foldlM_cons,
    maStep_run calculate_ema "EMA" emaSeries calculate_ema_run df p col hclose,
    except_bind_ok]
  rfl

theorem names_filter_of_not_has (f : Frame) (n : String) (h : f.hasCol n = false) :
    f.names.filter (fun m => !(m == n)) = f.names := by
  apply List.filter_eq_self.mpr
  intro m hm
  obtain ⟨c, hc, hceq⟩ := List.mem_map.mp hm
  unfold Frame.hasCol at h
  rw [List.any_eq_false] at h
  have h2 := h c hc
  rw [← hceq]
  cases hb : c.1 == n with
  | false => rfl
  | true => exact absurd hb h2

theorem count_names_zero (f : Frame) (n : String) (h : f.hasCol n = false) :
    f.names.count n = 0 := by
  rw [List.count_eq_zero]
  intro hmem
  obtain ⟨c, hc, hceq⟩ := List.mem_map.mp hmem
  unfold Frame.hasCol at h
  rw [List.any_eq_false] at h
  exact h c hc (beq_iff_eq.mpr hceq)

/-- C2. The engine computes each requested MA period through the math
library, copies the type-prefixed column (`SMA20`/`EMA20`) to the
type-agnostic `MA20` and drops the type-prefixed column; when two `ma`
requests share a period, the later request's values overwrite the earlier
ones, so `parse "ma:sma:20;ma:ema:20"` followed by calculation yields a
single `MA20` column holding the EMA(20) values (zero-filled over the
warm-up by the engine's final `fillna(0)`), with no `SMA20`/`EMA20` column
left behind. -/
theorem ma_last_write_wins (df : Frame) (xs : List ℚ)
    (hclose : df.getCol "close" = some (xs.map some))
    (h1 : df.hasCol "MA20" = false) (h2 : df.hasCol "SMA20" = false)
    (h3 : df.hasCol "EMA20" = false) :
    ∃ out,
      parse "ma:sma:20;ma:ema:20" = Except.ok
        [⟨"ma", [("ma_type", PValue.s "sma"), ("periods", PValue.il [20])]⟩,
         ⟨"ma", [("ma_type", PValue.s "ema"), ("periods", PValue.il [20])]⟩] ∧
      calculate df
        [⟨"ma", [("ma_type", PValue.s "sma"), ("periods", PValue.il [20])]⟩,
         ⟨"ma", [("ma_type", PValue.s "ema"), ("periods", PValue.il [20])]⟩]
        = Except.ok out ∧
      out.getCol "MA20" = some ((emaSeries 20 xs).map fill0) ∧
      out.hasCol "SMA20" = false ∧
      out.hasCol "EMA20" = false ∧
      out.names = df.names ++ ["MA20"] ∧
      out.names.count "MA20" = 1 := by
  have hvals : vals (xs.map some) = xs := vals_map_some xs
  set sma : List Cell := smaSeries 20 xs with hsma
  set ema : List Cell := emaSeries 20 xs with hema
  set df1 : Frame := ((df.setCol "SMA20" sma).setCol "MA20" sma).dropCol "SMA20"
    with hdf1
  have happ1 : applyRequest df
      ⟨"ma", [("ma_type", PValue.s "sma"), ("periods", PValue.il [20])]⟩
      = Except.ok df1 := by
    show calcMaReq df [("ma_type", PValue.s "sma"), ("periods", PValue.il [20])]
      = Except.ok df1
    rw [calcMaReq_sma_run df (xs.map some) 20 hclose, hvals]
    rw [show ("SMA" ++ toString (20 : Int)) = "SMA20" from by decide,
      show ("MA" ++ toString (20 : Int)) = "MA20" from by decide]
    rfl
  have hclose1 : df1.getCol "close" = some (xs.map some) := by
    rw [hdf1, getCol_dropCol_ne _ _ _ (by decide : ("close" : String) ≠ "SMA20"),
      getCol_setCol_ne _ _ _ _ (by decide : ("close" : String) ≠ "MA20"),
      getCol_setCol_ne _ _ _ _ (by decide : ("close" : String) ≠ "SMA20"), hclose]
  set df2 : Frame := ((df1.setCol "EMA20" ema).setCol "MA20" ema).dropCol "EMA20"
    with hdf2
  have happ2 : applyRequest df1
      ⟨"ma", [("ma_type", PValue.s "ema"), ("periods", PValue.il [20])]⟩
      = Except.ok df2 := by
    show calcMaReq df1 [("ma_type", PValue.s "ema"), ("periods", PValue.il [20])]
      = Except.ok df2
    rw [calcMaReq_ema_run df1 (xs.map some) 20 hclose1, hvals]
    rw [show ("EMA" ++ toString (20 : Int)) = "EMA20" from by decide,
      show ("MA" ++ toString (20 : Int)) = "MA20" from by decide]
    rfl
  have hcalc : calculate df
      [⟨"ma", [("ma_type", PValue.s "sma"), ("periods", PValue.il [20])]⟩,
       ⟨"ma", [("ma_type", PValue.s "ema"), ("periods", PValue.il [20])]⟩]
      = Except.ok df2.fillna0 := by
    unfold calculate
    rw [List.foldlM_cons, happ1, except_bind_ok, List.foldlM_cons, happ2,
      except_bind_ok]
    rfl
  have hMA20df1 : df1.hasCol "MA20" = true := by
    rw [hdf1, hasCol_dropCol_ne _ _ _ (by decide : ("MA20" : String) ≠ "SMA20"),
      hasCol_setCol_self]
  have hEMAdf1 : df1.hasCol "EMA20" = false := by
    rw [hdf1, hasCol_dropCol_ne _ _ _ (by decide : ("EMA20" : String) ≠ "SMA20"),
      hasCol_setCol_ne _ _ _ _ (by decide : ("EMA20" : String) ≠ "MA20"),
      hasCol_setCol_ne _ _ _ _ (by decide : ("EMA20" : String) ≠ "SMA20")]
    exact h3
  have hnamesdf1 : df1.names = df.names ++ ["MA20"] := by
    rw [hdf1, names_dropCol,
      names_setCol_absent _ _ _ (by
        rw [hasCol_setCol_ne _ _ _ _ (by decide : ("MA20" : String) ≠ "SMA20")]
        exact h1),
      names_setCol_absent _ _ _ h2, List.filter_append, List.filter_append,
      names_filter_of_not_has df "SMA20" h2]
    simp
  have hnames : df2.fillna0.names = df.names ++ ["MA20"] := by
    rw [names_fillna0, hdf2, names_dropCol,
      names_setCol_present _ _ _ (by
        rw [hasCol_setCol_ne _ _ _ _ (by decide : ("MA20" : String) ≠ "EMA20")]
        exact hMA20df1),
      names_setCol_absent _ _ _ hEMAdf1, List.filter_append,
      names_filter_of_not_has df1 "EMA20" hEMAdf1, hnamesdf1]
    simp
  refine ⟨df2.fillna0, by decide, hcalc, ?_, ?_, ?_, hnames, ?_⟩
  · rw [getCol_fillna0, hdf2,
      getCol_dropCol_ne _ _ _ (by decide : ("MA20" : String) ≠ "EMA20"),
      getCol_setCol_self, Option.map_some']
  · rw [hasCol_fillna0, hdf2,
      hasCol_dropCol_ne _ _ _ (by decide : ("SMA20" : String) ≠ "EMA20"),
      hasCol_setCol_ne _ _ _ _ (by decide : ("SMA20" : String) ≠ "MA20"),
      hasCol_setCol_ne _ _ _ _ (by decide : ("SMA20" : String) ≠ "EMA20"),
      hdf1, hasCol_dropCol_self]
  · rw [hasCol_fillna0, hdf2, hasCol_dropCol_self]
  · rw [hnames, List.count_append, count_names_zero df "MA20" h1]
    rfl

/-- Witness for C2 at a concrete three-bar close series. -/
theorem ma_last_write_wins_witness :
    ∃ out,
      parse "ma:sma:20;ma:ema:20" = Except.ok
        [⟨"ma", [("ma_type", PValue.s "sma"), ("periods", PValue.il [20])]⟩,
         ⟨"ma", [("ma_type", PValue.s "ema"), ("periods", PValue.il [20])]⟩] ∧
      calculate ⟨[("close", [some 1, some 2, some 3])]⟩
        [⟨"ma", [("ma_type", PValue.s "sma"), ("periods", PValue.il [20])]⟩,
         ⟨"ma", [("ma_type", PValue.s "ema"), ("periods", PValue.il [20])]⟩]
        = Except.ok out ∧
      out.getCol "MA20" = some ((emaSeries 20 [1, 2, 3]).map fill0) ∧
      out.hasCol "SMA20" = false ∧
      out.hasCol "EMA20" = false ∧
      out.names = (⟨[("close", [some 1, some 2, some 3])]⟩ : Frame).names ++ ["MA20"] ∧
      out.names.count "MA20" = 1 :=
  ma_last_write_wins ⟨[("close", [some 1, some 2, some 3])]⟩ [1, 2, 3]
    (by decide) (by decide) (by decide) (by decide)

end VolumeProfile
